import Mathlib

/-!
# zero-node networking core: shallow embedding and verification

This file embeds the framing/session/dispatch core of the zero-node
repository in Lean and proves properties of the embedded definitions.

Modelling conventions:

* Go byte slices are `List Nat`; every serializer emits values `< 256`
  (`% 256` appears exactly where Go's typed truncation happens).
* Go `uint16` conversions are `% 65536`, made explicit at the conversion
  points (`uint16BE` truncates like `binary.Write` of a `uint16`).
* External collaborators that the core only consumes (the RC4 cipher, the
  compressor, HMAC-MD5, hex/JSON codecs, Curve25519) are parameters:
  function-valued fields or arguments, constrained by hypotheses in the
  theorems that need their contracts (e.g. `decrypt (encrypt b) = some b`).
* The single-reader ring buffer (`zero-helper/buffer/ringbytes`) is used by
  `Unpack` only through `Len`, `Peek(2)` and `Read(n)`; it is modelled as a
  FIFO `List Nat`: `Peek n = take n`, `Read n` consumes `take n` leaving
  `drop n`.
* Fallible Go calls return `Option`/`Except`; the sentinel errors of
  `datapack` are an inductive type.
-/

/-! ## Flags (pkg/network/flag.go) -/

def FlagCompress : Nat := 0x0001

def FlagEncrypt : Nat := 0x0010

def FlagChecksum : Nat := 0x0100

def FlagZero : Nat := 0x1000

def FlagZeroExchangeKeyRequest : Nat := 1

def FlagZeroExchangeKeyResponse : Nat := 2

def FlagZeroHeartBeat : Nat := 3

/-! ## Messages (datapack ltdMessage: head Len/Flag/SN, body Code/Module/Action/Payload).
`Len` is derived (`4 + |payload|` in `NewLTDMessage`) and is not stored. -/

structure Message where
  flag : Nat
  sn : Nat
  code : Nat
  module : Nat
  action : Nat
  payload : List Nat
deriving DecidableEq, Repr

/-! ## Byte-order helpers (`binary.Write` big-endian / `zerobytes.ToUint16`) -/

def uint16BE (n : Nat) : List Nat := [n / 256 % 256, n % 256]

def toUint16 (bs : List Nat) : Nat :=
  match bs with
  | [a, b] => a * 256 + b
  | _ => 0

def toUint8 (bs : List Nat) : Nat :=
  match bs with
  | [a] => a
  | _ => 0

/-- Read helper: `readU16 bs i` reads the big-endian `uint16` at offset `i` of `bs`. -/
def readU16 (bs : List Nat) (i : Nat) : Nat := toUint16 ((bs.drop i).take 2)

/-- The Go loop `for i, v := range vals { bs[s+i] = v }`. -/
def overwriteFrom : List Nat → Nat → List Nat → List Nat
  | bs, _, [] => bs
  | bs, s, v :: vs => overwriteFrom (bs.set s v) (s + 1) vs

/-! ## External collaborator interfaces -/

/-- Model of `zeronetwork.Crypto` (RC4 in the source): direction-specific stream
cipher. `Decrypt` may fail. -/
structure CryptoInst where
  encrypt : List Nat → List Nat
  decrypt : List Nat → Option (List Nat)

/-- Model of `zerocompress.Compress`: `Uncompress` may fail. -/
structure CompressInst where
  compress : List Nat → List Nat
  uncompress : List Nat → Option (List Nat)

/-! ## The LTD codec (datapack, current version: checksum key + FlagZero) -/

/-- Sentinel errors of the datapack package. -/
inductive UErr where
  | getPayloadLen
  | getAllBytes
  | verifyChecksum
  | noChecksumFlag
  | decryptPayload
  | decompressPayload
deriving DecidableEq, Repr

def ChecksumLength : Nat := 16

/-- Head length: the size of `ltdMessageHead` is 22
(`Len`+`Flag`+`SN`+`Checksum[16]`), minus 16 when checksums are off. -/
def ltdHeadLen (whetherChecksum : Bool) : Nat :=
  if whetherChecksum then 22 else 22 - ChecksumLength

/-- The `ltd` codec object built by `NewLTD`. `hmac` stands for
`zerocrypto.HmacMd5ByteToByte(data, key)`. -/
structure LTD where
  whetherCompress : Bool
  compressThreshold : Nat
  compress : Option CompressInst
  whetherCrypto : Bool
  whetherChecksum : Bool
  hmac : List Nat → List Nat → List Nat

/-- The `headLen` field, assigned `ltdHeadLen(whetherChecksum)` in `NewLTD`. -/
def LTD.headLen (l : LTD) : Nat := ltdHeadLen l.whetherChecksum

/-- Body packing (`packBody`): serialize `code‖module‖action‖payload`, then compress
(whole body, threshold-gated), then encrypt (skipped on `FlagZero`).
Returns the transformed body and the updated flag. -/
def packBody (l : LTD) (crypto : Option CryptoInst) (m : Message) :
    List Nat × Nat :=
  let body0 := uint16BE m.code ++ [m.module % 256, m.action % 256] ++ m.payload
  let step1 : List Nat × Nat :=
    match l.compress with
    | some cp =>
      if l.whetherCompress && decide (body0.length ≥ l.compressThreshold) then
        (cp.compress body0, m.flag ||| FlagCompress)
      else (body0, m.flag)
    | none => (body0, m.flag)
  match crypto with
  | some cr =>
    if l.whetherCrypto && decide (step1.2 &&& FlagZero = 0) then
      (cr.encrypt step1.1, step1.2 ||| FlagEncrypt)
    else step1
  | none => step1

/-- Frame packing (`Pack`): header `len‖flag‖sn`, optional zeroed 16-byte checksum slot,
body; the HMAC of the zero-slot frame overwrites the slot unless the frame
is `FlagZero`. -/
def Pack (l : LTD) (crypto : Option CryptoInst) (checksumKey : List Nat)
    (m : Message) : List Nat :=
  let bf := packBody l crypto m
  let flag2 := if l.whetherChecksum then bf.2 ||| FlagChecksum else bf.2
  let allBytes :=
    uint16BE bf.1.length ++ uint16BE flag2 ++ uint16BE m.sn ++
      (if l.whetherChecksum then List.replicate ChecksumLength 0 else []) ++
      bf.1
  if l.whetherChecksum && decide (flag2 &&& FlagZero = 0) then
    overwriteFrom allBytes (ltdHeadLen true - ChecksumLength)
      (l.hmac allBytes checksumKey)
  else allBytes

/-- The flag value that `Pack` writes on the wire for `m`. -/
def packedFlag (l : LTD) (crypto : Option CryptoInst) (m : Message) : Nat :=
  if l.whetherChecksum then (packBody l crypto m).2 ||| FlagChecksum
  else (packBody l crypto m).2

/-- Checksum verification (`verifyChecksum`): zero the slot `[headLen-16, headLen)` of the consumed
bytes, recompute the HMAC, compare with the extracted checksum (length
mismatch also fails). -/
def ltdVerifyChecksum (l : LTD) (checksum : List Nat) (allBytes : List Nat)
    (checksumKey : List Nat) : Bool :=
  let zeroed := overwriteFrom allBytes (ltdHeadLen true - ChecksumLength)
    (List.replicate ChecksumLength 0)
  checksum == l.hmac zeroed checksumKey

/-- The body of the `Unpack` loop once a full frame `allBytes` (of wire
body length `bodyLen`) has been consumed from the ring. -/
def unpackFrame (l : LTD) (crypto : Option CryptoInst) (checksumKey : List Nat)
    (allBytes : List Nat) (bodyLen : Nat) : Except UErr Message :=
  let flag := readU16 allBytes 2
  let sn := readU16 allBytes 4
  if l.whetherChecksum && decide (flag &&& FlagChecksum = 0) then
    .error .noChecksumFlag
  else if l.whetherChecksum && decide (flag &&& FlagZero = 0) &&
      !ltdVerifyChecksum l ((allBytes.drop 6).take ChecksumLength) allBytes
        checksumKey then
    .error .verifyChecksum
  else
    let bodyBytes := allBytes.drop l.headLen
    let dec : Except UErr (List Nat) :=
      match crypto with
      | some cr =>
        if decide (flag &&& FlagEncrypt ≠ 0) && decide (flag &&& FlagZero = 0)
        then
          match cr.decrypt bodyBytes with
          | some b => .ok b
          | none => .error .decryptPayload
        else .ok bodyBytes
      | none => .ok bodyBytes
    match dec with
    | .error e => .error e
    | .ok b1 =>
      let dcp : Except UErr (List Nat) :=
        match l.compress with
        | some cp =>
          if decide (flag &&& FlagCompress ≠ 0) then
            match cp.uncompress b1 with
            | some b => .ok b
            | none => .error .decompressPayload
          else .ok b1
        | none => .ok b1
      match dcp with
      | .error e => .error e
      | .ok b2 =>
        .ok { flag := flag, sn := sn, code := 0,
              module := toUint8 ((b2.drop 2).take 1),
              action := toUint8 ((b2.drop 3).take 1),
              payload := if bodyLen - 4 > 0 then b2.drop 4 else [] }

/-- The `Unpack` loop over the ring contents, with an explicit fuel bound
(each iteration consumes at least `headLen ≥ 6` bytes, so fuel
`buffer.length` never runs out). -/
def unpackLoop (l : LTD) (crypto : Option CryptoInst) (checksumKey : List Nat) :
    Nat → List Nat → Except UErr (List Message × List Nat)
  | 0, buffer => .ok ([], buffer)
  | fuel + 1, buffer =>
    if buffer.length < l.headLen then .ok ([], buffer)
    else
      let bodyLen := toUint16 (buffer.take 2)
      if buffer.length < l.headLen + bodyLen then .ok ([], buffer)
      else
        let allBytes := buffer.take (l.headLen + bodyLen)
        match unpackFrame l crypto checksumKey allBytes bodyLen with
        | .error e => .error e
        | .ok msg =>
          match unpackLoop l crypto checksumKey fuel
              (buffer.drop (l.headLen + bodyLen)) with
          | .error e => .error e
          | .ok (msgs, rem) => .ok (msg :: msgs, rem)

/-- Unpacking (`Unpack`): drain all complete frames from the ring, leaving a partial
suffix; any frame error aborts the whole call. -/
def Unpack (l : LTD) (crypto : Option CryptoInst) (checksumKey : List Nat)
    (buffer : List Nat) : Except UErr (List Message × List Nat) :=
  unpackLoop l crypto checksumKey buffer.length buffer

/-! ## Router (pkg/network: RouterID, AddRouter, Handler) -/

inductive RErr where
  | nilHandler
  | repeated
  | notFound
deriving DecidableEq, Repr

/-- Handler invocation results are not needed by the router claims; a
handler maps a message to an optional response. -/
def HandlerFunc : Type := Message → Option Message

/-- Router key (`RouterID`): `uint16(module<<4 + action)`, computed in `uint8`
arithmetic (`module` and `action` are `uint8`), then widened. -/
def RouterID (module action : Nat) : Nat :=
  ((module <<< 4) % 256 + action) % 256

/-- Route binding (`AddRouter`): nil handler is refused; a bound key fails `RouterRepeated`;
otherwise the binding is stored under `RouterID module action`. -/
def AddRouter (routes : List (Nat × HandlerFunc)) (module action : Nat)
    (handler : Option HandlerFunc) : Except RErr (List (Nat × HandlerFunc)) :=
  match handler with
  | none => .error .nilHandler
  | some h =>
    let routerID := RouterID module action
    if (routes.lookup routerID).isSome then .error .repeated
    else .ok ((routerID, h) :: routes)

/-- Dispatch (`Handler`): look up `RouterID(message.module, message.action)`; fall back
to the configurable handler; else `HandlerNotFound`. -/
def routerHandler (routes : List (Nat × HandlerFunc))
    (handlerFunc : Option HandlerFunc) (message : Message) :
    Except RErr (Option Message) :=
  match routes.lookup (RouterID message.module message.action) with
  | some h => .ok (h message)
  | none =>
    match handlerFunc with
    | some f => .ok (f message)
    | none => .error .notFound

/-! ## Session manager (pkg/network/session-manager.go)

The registry is a key-unique association list; `Del` reports the closed
session (the `session.Close()` side effect) in its second component. -/

abbrev SessionID : Type := Nat

inductive SMErr where
  | sessionNotFound
deriving DecidableEq, Repr

def SMGet {α : Type} (sessions : List (SessionID × α)) (sessionID : SessionID) :
    Except SMErr α :=
  match sessions.lookup sessionID with
  | some s => .ok s
  | none => .error .sessionNotFound

def SMLen {α : Type} (sessions : List (SessionID × α)) : Nat :=
  sessions.length

/-- Removal (`Del`): if the id is registered, close that session and delete the key;
otherwise do nothing. -/
def SMDel {α : Type} (sessions : List (SessionID × α)) (sessionID : SessionID) :
    List (SessionID × α) × Option α :=
  match sessions.lookup sessionID with
  | some s => (sessions.filter (fun p => p.1 != sessionID), some s)
  | none => (sessions, none)

/-! ## Key exchange (pkg/network/key, pkg/security/ecdh) -/

/-- JSON shape `{"public_key": hex, "r": hex}` of the request; hex strings
are byte lists. -/
structure ExchangeRequest where
  publicKey : List Nat
  r : List Nat
deriving DecidableEq, Repr

/-- JSON shape of the response (the source's name has the typo). -/
structure ExchageResponse where
  publicKey : List Nat
  r : List Nat
deriving DecidableEq, Repr

/-- External primitives consumed by the key-exchange handlers: hex codec,
JSON codec, and the Curve25519 shared-secret computation
(`GenerateShareKey`, with its ignored error folded into a total
function). -/
structure KeyPrims where
  hexEncode : List Nat → List Nat
  hexDecode : List Nat → List Nat
  marshalRequest : ExchangeRequest → List Nat
  unmarshalRequest : List Nat → Option ExchangeRequest
  marshalResponse : ExchageResponse → List Nat
  unmarshalResponse : List Nat → Option ExchageResponse
  shareKey : List Nat → List Nat → List Nat

/-- Key building (`ecdh.BuildKey`): byte concatenation shared‖rs‖rc. -/
def BuildKey (sharedKey rs rc : List Nat) : List Nat :=
  sharedKey ++ rs ++ rc

/-- Model of `ExchangeKeyRequest` with the generated keypair and nonce lifted to
parameters: returns (private key, nonce, request message). -/
def ExchangeKeyRequest (p : KeyPrims)
    (publicKey privateKey randomValue : List Nat) :
    List Nat × List Nat × Message :=
  let payload := p.marshalRequest
    ⟨p.hexEncode publicKey, p.hexEncode randomValue⟩
  (privateKey, randomValue,
    ⟨FlagZero, 0, 0, 0, FlagZeroExchangeKeyRequest, payload⟩)

/-- Model of `ExchangeKeyResponse` with the server keypair and nonce lifted to
parameters: parse the request, compute the shared secret against the
client public key, build `K = S‖Rs‖Rc`, reply. -/
def ExchangeKeyResponse (p : KeyPrims) (requestBytes : List Nat)
    (publicKey privateKey randomValue : List Nat) :
    Option (List Nat × Message) :=
  if requestBytes.length = 0 then none
  else
    match p.unmarshalRequest requestBytes with
    | none => none
    | some request =>
      let peerClientPublicKey := p.hexDecode request.publicKey
      let peerClientRandomValue := p.hexDecode request.r
      let serverSharedKey := p.shareKey privateKey peerClientPublicKey
      let key := BuildKey serverSharedKey randomValue peerClientRandomValue
      let payload := p.marshalResponse
        ⟨p.hexEncode publicKey, p.hexEncode randomValue⟩
      some (key,
        ⟨FlagZero, 0, 0, 0, FlagZeroExchangeKeyResponse, payload⟩)

/-- Response parsing (`ExchangeKeyParseResponse`): parse the response with the stashed private
key and nonce, build `K = S‖Rs‖Rc`. -/
def ExchangeKeyParseResponse (p : KeyPrims)
    (responseBytes privateKey randomValue : List Nat) :
    Option (List Nat) :=
  if responseBytes.length = 0 then none
  else
    match p.unmarshalResponse responseBytes with
    | none => none
    | some response =>
      let peerServerPublicKey := p.hexDecode response.publicKey
      let peerServerRandomValue := p.hexDecode response.r
      let clientSharedKey := p.shareKey privateKey peerServerPublicKey
      some (BuildKey clientSharedKey peerServerRandomValue randomValue)

/-! ## Control-frame handler (peer/kcp/session.go handleZero) -/

inductive ZeroErr where
  | unsupported (action : Nat)
  | handlerFailed
deriving DecidableEq, Repr

/-- Model of `handleZero` with the two key-exchange sub-handlers (which mutate
session state in the source) as parameters: non-`FlagZero` frames yield no
response; actions 1 and 2 are delegated; anything else is
`action not supported`. -/
def handleZero
    (onExchangeKeyRequest onExchangeKeyResponse :
      Message → Except ZeroErr (Option Message))
    (message : Message) : Except ZeroErr (Option Message) :=
  if message.flag &&& FlagZero = 0 then .ok none
  else if message.action = FlagZeroExchangeKeyRequest then
    onExchangeKeyRequest message
  else if message.action = FlagZeroExchangeKeyResponse then
    onExchangeKeyResponse message
  else .error (.unsupported message.action)

/-! ## Bitwise helper lemmas -/

theorem land_testBit_eq_false {d m : Nat} (h : d &&& m = 0) (i : Nat) :
    (d.testBit i && m.testBit i) = false := by
  have : (d &&& m).testBit i = false := by rw [h]; exact Nat.zero_testBit i
  rwa [Nat.testBit_land] at this

/-- Adding a flag bit disjoint from a mask does not change the masked
value. -/
theorem lor_land_of_disjoint {d m : Nat} (f : Nat) (h : d &&& m = 0) :
    (f ||| d) &&& m = f &&& m := by
  apply Nat.eq_of_testBit_eq
  intro i
  rw [Nat.testBit_land, Nat.testBit_lor, Nat.testBit_land]
  have hdm := land_testBit_eq_false h i
  cases hm : m.testBit i <;> cases hd : d.testBit i <;>
    simp_all [Bool.and_comm]

/-- A just-set power-of-two flag bit tests as set under its own mask. -/
theorem lor_land_self_pow {f j : Nat} : (f ||| 2 ^ j) &&& 2 ^ j = 2 ^ j := by
  apply Nat.eq_of_testBit_eq
  intro i
  rw [Nat.testBit_land, Nat.testBit_lor, Nat.testBit_two_pow]
  by_cases h : j = i <;> simp [h]

theorem land_mono_of_sub {f a b : Nat} (hsub : ∀ i, a.testBit i = true → b.testBit i = true)
    (h : f &&& b = 0) : f &&& a = 0 := by
  apply Nat.eq_of_testBit_eq
  intro i
  rw [Nat.testBit_land, Nat.zero_testBit]
  have hb := land_testBit_eq_false h i
  cases hfi : f.testBit i
  · simp
  · cases hai : a.testBit i
    · simp
    · have := hsub i hai
      simp [hfi, this] at hb

/-- A 16-bit flag with none of the derived bits `0x111` keeps its value
under the mask `0xFEEE` that erases the derived bits. -/
theorem land_mask_self {f : Nat} (hlt : f < 65536) (h : f &&& 273 = 0) :
    f &&& 65262 = f := by
  apply Nat.eq_of_testBit_eq
  intro i
  rw [Nat.testBit_land]
  have h273 := land_testBit_eq_false h i
  rcases lt_or_ge i 16 with hi | hi
  · cases hfi : f.testBit i
    · simp
    · simp only [hfi, Bool.true_and] at h273 ⊢
      revert h273
      interval_cases i <;> decide
  · have hf : f < 2 ^ i := by
      calc f < 65536 := hlt
      _ = 2 ^ 16 := by norm_num
      _ ≤ 2 ^ i := Nat.pow_le_pow_right (by norm_num) hi
    simp [Nat.testBit_lt_two_pow hf]

theorem land_pow_eq_zero_of {f j b : Nat} (h : f &&& b = 0)
    (hb : b.testBit j = true) : f &&& 2 ^ j = 0 := by
  apply Nat.eq_of_testBit_eq
  intro i
  rw [Nat.testBit_land, Nat.zero_testBit, Nat.testBit_two_pow]
  by_cases hi : j = i
  · subst hi
    have hfb := land_testBit_eq_false h j
    cases hf : f.testBit j
    · simp
    · simp [hf, hb] at hfb
  · simp [hi]

theorem lor_land_self_1 (g : Nat) : (g ||| 1) &&& 1 = 1 := by
  have h1 : (1 : Nat) = 2 ^ 0 := by norm_num
  rw [h1]
  exact lor_land_self_pow

theorem lor_land_self_16 (g : Nat) : (g ||| 16) &&& 16 = 16 := by
  have h1 : (16 : Nat) = 2 ^ 4 := by norm_num
  rw [h1]
  exact lor_land_self_pow

theorem lor_land_self_256 (g : Nat) : (g ||| 256) &&& 256 = 256 := by
  have h1 : (256 : Nat) = 2 ^ 8 := by norm_num
  rw [h1]
  exact lor_land_self_pow

theorem land_one_of_273 {f : Nat} (h : f &&& 273 = 0) : f &&& 1 = 0 := by
  have h1 : (1 : Nat) = 2 ^ 0 := by norm_num
  rw [h1]
  exact land_pow_eq_zero_of h (by decide)

theorem land_16_of_273 {f : Nat} (h : f &&& 273 = 0) : f &&& 16 = 0 := by
  have h1 : (16 : Nat) = 2 ^ 4 := by norm_num
  rw [h1]
  exact land_pow_eq_zero_of h (by decide)

theorem land_256_of_273 {f : Nat} (h : f &&& 273 = 0) : f &&& 256 = 0 := by
  have h1 : (256 : Nat) = 2 ^ 8 := by norm_num
  rw [h1]
  exact land_pow_eq_zero_of h (by decide)
theorem lor_lt_65536 {a b : Nat} (ha : a < 65536) (hb : b < 65536) :
    a ||| b < 65536 := by
  have h16 : (65536 : Nat) = 2 ^ 16 := by norm_num
  rw [h16] at ha hb ⊢
  exact Nat.or_lt_two_pow ha hb

/-! ## Serialization helper lemmas -/

theorem toUint16_uint16BE (n : Nat) : toUint16 (uint16BE n) = n % 65536 := by
  simp only [uint16BE, toUint16]
  omega

theorem toUint16_uint16BE_of_lt {n : Nat} (h : n < 65536) :
    toUint16 (uint16BE n) = n := by
  rw [toUint16_uint16BE]
  omega

theorem overwriteFrom_length (vals : List Nat) :
    ∀ (bs : List Nat) (s : Nat), (overwriteFrom bs s vals).length = bs.length := by
  induction vals with
  | nil => intro bs s; rfl
  | cons v vs ih =>
    intro bs s
    simp only [overwriteFrom, ih, List.length_set]

theorem overwriteFrom_eq_of_le (vals : List Nat) :
    ∀ (bs : List Nat) (s : Nat), s + vals.length ≤ bs.length →
      overwriteFrom bs s vals = bs.take s ++ vals ++ bs.drop (s + vals.length) := by
  induction vals with
  | nil =>
    intro bs s _
    simp only [overwriteFrom, List.length_nil, Nat.add_zero, List.append_nil]
    exact (List.take_append_drop s bs).symm
  | cons v vs ih =>
    intro bs s h
    have hs : s < bs.length := by simp at h; omega
    have hset : bs.set s v = bs.take s ++ v :: bs.drop (s + 1) := by
      rw [List.set_eq_take_append_cons_drop]
      simp [hs]
    simp only [overwriteFrom]
    rw [ih (bs.set s v) (s + 1) (by simp at h ⊢; omega), hset]
    have hlen : (bs.take s).length = s := by
      simp [List.length_take]
      omega
    have htk : (bs.take s ++ v :: bs.drop (s + 1)).take (s + 1)
        = bs.take s ++ [v] := by
      have h2 := @List.take_append _ (bs.take s) (v :: bs.drop (s + 1)) 1
      rw [hlen] at h2
      simpa using h2
    have hdr : (bs.take s ++ v :: bs.drop (s + 1)).drop (s + 1 + vs.length)
        = bs.drop (s + (vs.length + 1)) := by
      have harith : s + 1 + vs.length = (bs.take s).length + (1 + vs.length) := by
        rw [hlen]; omega
      rw [harith, List.drop_append, Nat.add_comm 1 vs.length,
        List.drop_succ_cons, List.drop_drop]
      congr 1
      omega
    rw [htk, hdr]
    simp [List.append_assoc]

/-! ## Proof-layer views of `Pack` and `unpackFrame`

`assembleFrame` is the frame-assembly half of `Pack` (everything after
`packBody`), and `parseBody` is the post-integrity half of `unpackFrame`
(decrypt, decompress, field parse). Both are definitionally equal to the
corresponding slices of the source functions (`Pack_eq_assembleFrame` is
`rfl`). -/

def assembleFrame (l : LTD) (checksumKey : List Nat) (sn : Nat)
    (bf : List Nat × Nat) : List Nat :=
  let flag2 := if l.whetherChecksum then bf.2 ||| FlagChecksum else bf.2
  let allBytes :=
    uint16BE bf.1.length ++ uint16BE flag2 ++ uint16BE sn ++
      (if l.whetherChecksum then List.replicate ChecksumLength 0 else []) ++
      bf.1
  if l.whetherChecksum && decide (flag2 &&& FlagZero = 0) then
    overwriteFrom allBytes (ltdHeadLen true - ChecksumLength)
      (l.hmac allBytes checksumKey)
  else allBytes

theorem Pack_eq_assembleFrame (l : LTD) (crypto : Option CryptoInst)
    (checksumKey : List Nat) (m : Message) :
    Pack l crypto checksumKey m
      = assembleFrame l checksumKey m.sn (packBody l crypto m) := rfl

def parseBody (l : LTD) (crypto : Option CryptoInst) (flag sn : Nat)
    (bodyBytes : List Nat) (bodyLen : Nat) : Except UErr Message :=
  let dec : Except UErr (List Nat) :=
    match crypto with
    | some cr =>
      if decide (flag &&& FlagEncrypt ≠ 0) && decide (flag &&& FlagZero = 0)
      then
        match cr.decrypt bodyBytes with
        | some b => .ok b
        | none => .error .decryptPayload
      else .ok bodyBytes
    | none => .ok bodyBytes
  match dec with
  | .error e => .error e
  | .ok b1 =>
    let dcp : Except UErr (List Nat) :=
      match l.compress with
      | some cp =>
        if decide (flag &&& FlagCompress ≠ 0) then
          match cp.uncompress b1 with
          | some b => .ok b
          | none => .error .decompressPayload
        else .ok b1
      | none => .ok b1
    match dcp with
    | .error e => .error e
    | .ok b2 =>
      .ok { flag := flag, sn := sn, code := 0,
            module := toUint8 ((b2.drop 2).take 1),
            action := toUint8 ((b2.drop 3).take 1),
            payload := if bodyLen - 4 > 0 then b2.drop 4 else [] }

/-- When the integrity gates pass, the `Unpack` loop body reduces to the
decrypt/decompress/parse stage. -/
theorem unpackFrame_pass (l : LTD) (crypto : Option CryptoInst)
    (checksumKey : List Nat) (allBytes : List Nat) (bodyLen : Nat)
    (h1 : l.whetherChecksum = true → readU16 allBytes 2 &&& FlagChecksum ≠ 0)
    (h2 : l.whetherChecksum = true → readU16 allBytes 2 &&& FlagZero = 0 →
      ltdVerifyChecksum l ((allBytes.drop 6).take ChecksumLength) allBytes
        checksumKey = true) :
    unpackFrame l crypto checksumKey allBytes bodyLen
      = parseBody l crypto (readU16 allBytes 2) (readU16 allBytes 4)
          (allBytes.drop l.headLen) bodyLen := by
  cases hc : l.whetherChecksum with
  | false =>
    simp only [unpackFrame, parseBody, hc, Bool.false_and, Bool.if_false_left,
      Bool.not_false, Bool.and_true, if_false]
    rfl
  | true =>
    have h1' := h1 hc
    simp only [unpackFrame, parseBody, hc, Bool.true_and]
    rw [if_neg (by simpa using h1')]
    by_cases hz : readU16 allBytes 2 &&& FlagZero = 0
    · have h2' := h2 hc hz
      rw [if_neg (by simp [hz, h2'])]
    · rw [if_neg (by simp [hz])]

theorem length_uint16BE (n : Nat) : (uint16BE n).length = 2 := rfl

theorem take_set_of_le {l : List Nat} {n m : Nat} {a : Nat} (h : m ≤ n) :
    (l.set n a).take m = l.take m := by
  rcases Nat.lt_or_ge n l.length with hn | hn
  · rw [List.set_eq_take_append_cons_drop]
    simp only [hn, if_true]
    rw [List.take_append_of_le_length (by simp [List.length_take]; omega),
      List.take_take]
    congr 1
    omega
  · rw [List.set_eq_of_length_le hn]

/-- Writing at offsets `≥ s` does not change the first `t ≤ s` bytes. -/
theorem overwriteFrom_take_of_le (vals : List Nat) :
    ∀ (bs : List Nat) (s t : Nat), t ≤ s →
      (overwriteFrom bs s vals).take t = bs.take t := by
  induction vals with
  | nil => intro bs s t _; rfl
  | cons v vs ih =>
    intro bs s t h
    simp only [overwriteFrom]
    rw [ih (bs.set s v) (s + 1) t (by omega), take_set_of_le h]

/-- Writing at offsets `< t` does not change the bytes from `t` on. -/
theorem overwriteFrom_drop_of_le (vals : List Nat) :
    ∀ (bs : List Nat) (s t : Nat), s + vals.length ≤ t →
      (overwriteFrom bs s vals).drop t = bs.drop t := by
  induction vals with
  | nil => intro bs s t _; rfl
  | cons v vs ih =>
    intro bs s t h
    simp only [overwriteFrom]
    rw [ih (bs.set s v) (s + 1) t (by simp at h ⊢; omega),
      List.drop_set_of_lt _ _ (by simp at h; omega)]

theorem overwriteFrom_length_eq (bs : List Nat) (s : Nat) (vals : List Nat) :
    (overwriteFrom bs s vals).length = bs.length :=
  overwriteFrom_length vals bs s

theorem assembleFrame_length (l : LTD) (k : List Nat) (sn : Nat)
    (bf : List Nat × Nat) :
    (assembleFrame l k sn bf).length = l.headLen + bf.1.length := by
  unfold assembleFrame
  cases hc : l.whetherChecksum
  · simp [hc, LTD.headLen, ltdHeadLen, ChecksumLength, length_uint16BE]
    omega
  · by_cases hz : (bf.2 ||| FlagChecksum) &&& FlagZero = 0
    · simp [hc, hz, overwriteFrom_length_eq, LTD.headLen, ltdHeadLen,
        ChecksumLength, length_uint16BE]
      omega
    · simp [hc, hz, LTD.headLen, ltdHeadLen, ChecksumLength, length_uint16BE]
      omega

theorem assembleFrame_take2 (l : LTD) (k : List Nat) (sn : Nat)
    (bf : List Nat × Nat) :
    (assembleFrame l k sn bf).take 2 = uint16BE bf.1.length := by
  unfold assembleFrame
  cases hc : l.whetherChecksum
  · simp only [hc, Bool.false_and, Bool.false_eq_true, if_false,
      Bool.false_eq_true]
    rw [List.append_assoc, List.append_assoc, List.append_assoc,
      List.take_append_of_le_length (by simp [length_uint16BE])]
    simp [uint16BE]
  · simp only [hc, if_true, Bool.true_and]
    by_cases hz : (bf.2 ||| FlagChecksum) &&& FlagZero = 0
    · rw [if_pos (by simpa using hz)]
      rw [overwriteFrom_take_of_le _ _ _ _
          (by simp [ltdHeadLen, ChecksumLength]),
        List.append_assoc, List.append_assoc, List.append_assoc,
        List.take_append_of_le_length (by simp [length_uint16BE])]
      simp [uint16BE]
    · rw [if_neg (by simpa using hz)]
      rw [List.append_assoc, List.append_assoc, List.append_assoc,
        List.take_append_of_le_length (by simp [length_uint16BE])]
      simp [uint16BE]
theorem readU16_canon2 (L G s : Nat) (CS B : List Nat) :
    readU16 (uint16BE L ++ uint16BE G ++ uint16BE s ++ CS ++ B) 2
      = G % 65536 := by
  simp [readU16, uint16BE, toUint16]
  omega

theorem readU16_canon4 (L G s : Nat) (CS B : List Nat) :
    readU16 (uint16BE L ++ uint16BE G ++ uint16BE s ++ CS ++ B) 4
      = s % 65536 := by
  simp [readU16, uint16BE, toUint16]
  omega

theorem take6_canon (L G s : Nat) (CS B : List Nat) :
    (uint16BE L ++ uint16BE G ++ uint16BE s ++ CS ++ B).take 6
      = uint16BE L ++ uint16BE G ++ uint16BE s := by
  simp [uint16BE]

theorem drop6_canon (L G s : Nat) (CS B : List Nat) :
    (uint16BE L ++ uint16BE G ++ uint16BE s ++ CS ++ B).drop 6 = CS ++ B := by
  simp [uint16BE]

theorem drop_body_canon (L G s : Nat) (CS B : List Nat) (c : Nat)
    (hcs : CS.length = c) :
    (uint16BE L ++ uint16BE G ++ uint16BE s ++ CS ++ B).drop (6 + c) = B := by
  rw [← List.drop_drop, drop6_canon, List.drop_left' hcs]

theorem slot_canon (L G s : Nat) (CS B : List Nat) (c : Nat)
    (hcs : CS.length = c) :
    ((uint16BE L ++ uint16BE G ++ uint16BE s ++ CS ++ B).drop 6).take c
      = CS := by
  rw [drop6_canon, List.take_left' hcs]

theorem length_canon (L G s : Nat) (CS B : List Nat) :
    (uint16BE L ++ uint16BE G ++ uint16BE s ++ CS ++ B).length
      = 6 + CS.length + B.length := by
  simp [uint16BE]
  omega

/-- Canonical decomposition of an assembled frame: header, a 16-byte
checksum slot (HMAC-filled, or zero on `FlagZero` frames), body. -/
theorem assembleFrame_shape (l : LTD) (k : List Nat) (sn : Nat)
    (B : List Nat) (F : Nat)
    (hlen16 : ∀ d, (l.hmac d k).length = ChecksumLength) :
    ∃ CS : List Nat,
      CS.length = (if l.whetherChecksum then ChecksumLength else 0) ∧
      assembleFrame l k sn (B, F)
        = uint16BE B.length ++
            uint16BE (if l.whetherChecksum then F ||| FlagChecksum else F) ++
            uint16BE sn ++ CS ++ B ∧
      (l.whetherChecksum = true → F &&& FlagZero = 0 →
        CS = l.hmac (uint16BE B.length ++ uint16BE (F ||| FlagChecksum) ++
          uint16BE sn ++ List.replicate ChecksumLength 0 ++ B) k) ∧
      (l.whetherChecksum = true → F &&& FlagZero ≠ 0 →
        CS = List.replicate ChecksumLength 0) := by
  unfold assembleFrame
  cases hc : l.whetherChecksum
  · exact ⟨[], by simp, by simp, by simp, by simp⟩
  · simp only [if_true, Bool.true_and]
    have hzflag : (F ||| FlagChecksum) &&& FlagZero = F &&& FlagZero :=
      lor_land_of_disjoint F (by decide)
    by_cases hz : F &&& FlagZero = 0
    · set pre := uint16BE B.length ++ uint16BE (F ||| FlagChecksum) ++
        uint16BE sn ++ List.replicate ChecksumLength 0 ++ B with hpre
      have hprelen : pre.length = 6 + ChecksumLength + B.length := by
        rw [hpre, length_canon]
        simp [ChecksumLength]
      refine ⟨l.hmac pre k, hlen16 pre, ?_, fun _ _ => rfl, fun _ hzz =>
        absurd hz hzz⟩
      rw [if_pos (by simp [hzflag, hz])]
      rw [overwriteFrom_eq_of_le _ _ _ (by
        rw [show ltdHeadLen true - ChecksumLength = 6 by rfl, hlen16,
          hprelen]
        omega)]
      have h6 : pre.take 6 = uint16BE B.length ++
          uint16BE (F ||| FlagChecksum) ++ uint16BE sn := by
        rw [hpre]
        exact take6_canon _ _ _ _ _
      have hdrop : pre.drop (ltdHeadLen true - ChecksumLength +
          (l.hmac pre k).length) = B := by
        rw [hlen16, hpre, show ltdHeadLen true - ChecksumLength = 6 by rfl]
        exact drop_body_canon _ _ _ _ _ _ rfl
      rw [show ltdHeadLen true - ChecksumLength = 6 by rfl] at hdrop ⊢
      rw [h6, hdrop]
    · refine ⟨List.replicate ChecksumLength 0, by simp, ?_,
        fun _ hzz => absurd hzz hz, fun _ _ => rfl⟩
      rw [if_neg (by simp [hzflag, hz])]

/-- Unpacking a single assembled frame reduces to the
decrypt/decompress/parse stage with the on-wire flag, sequence number and
body recovered exactly. -/
theorem unpackFrame_assembleFrame (l : LTD) (crypto : Option CryptoInst)
    (k : List Nat) (sn : Nat) (B : List Nat) (F : Nat)
    (hsn : sn < 65536) (hB : B.length < 65536) (hF : F < 65536)
    (hlen16 : ∀ d, (l.hmac d k).length = ChecksumLength) :
    unpackFrame l crypto k (assembleFrame l k sn (B, F)) B.length
      = parseBody l crypto
          (if l.whetherChecksum then F ||| FlagChecksum else F) sn B
          B.length := by
  obtain ⟨CS, hCSlen, hshape, hcs1, hcs0⟩ :=
    assembleFrame_shape l k sn B F hlen16
  have hfl2lt : (if l.whetherChecksum then F ||| FlagChecksum else F)
      < 65536 := by
    cases hc : l.whetherChecksum
    · simpa using hF
    · simp only [if_true]
      exact lor_lt_65536 hF (by norm_num [FlagChecksum])
  have hread2 : readU16 (assembleFrame l k sn (B, F)) 2
      = (if l.whetherChecksum then F ||| FlagChecksum else F) := by
    rw [hshape, readU16_canon2]
    exact Nat.mod_eq_of_lt hfl2lt
  have hread4 : readU16 (assembleFrame l k sn (B, F)) 4 = sn := by
    rw [hshape, readU16_canon4]
    exact Nat.mod_eq_of_lt hsn
  have hhl : l.headLen = 6 + CS.length := by
    cases hc : l.whetherChecksum <;>
      simp [LTD.headLen, ltdHeadLen, hc, hCSlen, ChecksumLength]
  have hdrophl : (assembleFrame l k sn (B, F)).drop l.headLen = B := by
    rw [hhl, hshape]
    exact drop_body_canon _ _ _ _ _ _ rfl
  have h1 : l.whetherChecksum = true →
      readU16 (assembleFrame l k sn (B, F)) 2 &&& FlagChecksum ≠ 0 := by
    intro hc
    rw [hread2]
    simp only [hc, if_true]
    intro h0
    have h256 := lor_land_self_256 F
    rw [show FlagChecksum = 256 from rfl] at h0
    rw [h0] at h256
    exact absurd h256.symm (by norm_num)
  have h2 : l.whetherChecksum = true →
      readU16 (assembleFrame l k sn (B, F)) 2 &&& FlagZero = 0 →
      ltdVerifyChecksum l
        (((assembleFrame l k sn (B, F)).drop 6).take ChecksumLength)
        (assembleFrame l k sn (B, F)) k = true := by
    intro hc hz0
    rw [hread2] at hz0
    simp only [hc, if_true] at hz0 hshape hCSlen ⊢
    have hzF : F &&& FlagZero = 0 := by
      rw [lor_land_of_disjoint F (by decide)] at hz0
      exact hz0
    have hCS : CS = l.hmac (uint16BE B.length ++
        uint16BE (F ||| FlagChecksum) ++ uint16BE sn ++
        List.replicate ChecksumLength 0 ++ B) k := hcs1 hc hzF
    have hslot : ((assembleFrame l k sn (B, F)).drop 6).take ChecksumLength
        = CS := by
      rw [hshape]
      exact slot_canon _ _ _ _ _ _ hCSlen
    have hflen : (assembleFrame l k sn (B, F)).length
        = 6 + ChecksumLength + B.length := by
      rw [hshape, length_canon, hCSlen]
    unfold ltdVerifyChecksum
    rw [hslot]
    rw [show ltdHeadLen true - ChecksumLength = 6 from rfl]
    rw [overwriteFrom_eq_of_le _ _ _ (by
      rw [hflen]
      simp [ChecksumLength])]
    have htk6 : (assembleFrame l k sn (B, F)).take 6
        = uint16BE B.length ++ uint16BE (F ||| FlagChecksum) ++
          uint16BE sn := by
      rw [hshape]
      exact take6_canon _ _ _ _ _
    have hdr22 : (assembleFrame l k sn (B, F)).drop
        (6 + (List.replicate ChecksumLength (0 : Nat)).length) = B := by
      rw [List.length_replicate, hshape]
      exact drop_body_canon _ _ _ _ _ _ hCSlen
    rw [htk6, hdr22]
    simp only [List.append_assoc] at hCS ⊢
    rw [← hCS]
    simp
  rw [unpackFrame_pass l crypto k _ _ h1 h2, hread2, hread4, hdrophl]

theorem packedFlag_land_256_disjoint (l : LTD) (co : Option CryptoInst)
    (m : Message) (d : Nat) (hd : 256 &&& d = 0) :
    packedFlag l co m &&& d = (packBody l co m).2 &&& d := by
  unfold packedFlag
  cases l.whetherChecksum
  · simp
  · simp only [if_true]
    exact lor_land_of_disjoint _ hd

theorem body0_module (m : Message) (hmod : m.module < 256) :
    toUint8 (((uint16BE m.code ++ [m.module % 256, m.action % 256] ++
      m.payload).drop 2).take 1) = m.module := by
  simp [uint16BE, toUint8]
  omega

theorem body0_action (m : Message) (hact : m.action < 256) :
    toUint8 (((uint16BE m.code ++ [m.module % 256, m.action % 256] ++
      m.payload).drop 3).take 1) = m.action := by
  simp [uint16BE, toUint8]
  omega

theorem body0_payload (m : Message) (bodyLen : Nat)
    (hpay : m.payload = [] ∨ 4 < bodyLen) :
    (if bodyLen - 4 > 0 then
      (uint16BE m.code ++ [m.module % 256, m.action % 256] ++
        m.payload).drop 4
    else []) = m.payload := by
  have hdrop : (uint16BE m.code ++ [m.module % 256, m.action % 256] ++
      m.payload).drop 4 = m.payload := by
    simp [uint16BE]
  rcases hpay with hp | hp
  · rw [hdrop, hp, ite_self]
  · rw [if_pos (by omega), hdrop]

theorem body0_length (m : Message) :
    (uint16BE m.code ++ [m.module % 256, m.action % 256] ++
      m.payload).length = 4 + m.payload.length := by
  simp [uint16BE]
  omega

/-- The decompress-and-parse tail of `parseBody`. -/
def parseTail (l : LTD) (flag sn : Nat) (b1 : List Nat) (bodyLen : Nat) :
    Except UErr Message :=
  let dcp : Except UErr (List Nat) :=
    match l.compress with
    | some cp =>
      if decide (flag &&& FlagCompress ≠ 0) then
        match cp.uncompress b1 with
        | some b => .ok b
        | none => .error .decompressPayload
      else .ok b1
    | none => .ok b1
  match dcp with
  | .error e => .error e
  | .ok b2 =>
    .ok { flag := flag, sn := sn, code := 0,
          module := toUint8 ((b2.drop 2).take 1),
          action := toUint8 ((b2.drop 3).take 1),
          payload := if bodyLen - 4 > 0 then b2.drop 4 else [] }

theorem parseBody_skip_dec (l : LTD) (co : Option CryptoInst)
    (flag sn : Nat) (B : List Nat) (n : Nat)
    (h : co = none ∨ flag &&& FlagEncrypt = 0 ∨ flag &&& FlagZero ≠ 0) :
    parseBody l co flag sn B n = parseTail l flag sn B n := by
  rcases hco : co with _ | cr
  · rfl
  · subst hco
    rcases h with h | h | h
    · exact absurd h (by simp)
    · simp only [parseBody, parseTail]
      rw [if_neg (by simp [h])]
    · simp only [parseBody, parseTail]
      rw [if_neg (by simp [h])]

theorem parseBody_dec (l : LTD) (cr : CryptoInst)
    (flag sn : Nat) (B b1 : List Nat) (n : Nat)
    (h16 : flag &&& FlagEncrypt ≠ 0) (hz : flag &&& FlagZero = 0)
    (hdec : cr.decrypt B = some b1) :
    parseBody l (some cr) flag sn B n = parseTail l flag sn b1 n := by
  simp only [parseBody, parseTail]
  rw [if_pos (by simp [h16, hz]), hdec]

theorem parseTail_skip (l : LTD) (flag sn : Nat) (b1 : List Nat) (n : Nat)
    (h : l.compress = none ∨ flag &&& FlagCompress = 0) :
    parseTail l flag sn b1 n
      = .ok { flag := flag, sn := sn, code := 0,
              module := toUint8 ((b1.drop 2).take 1),
              action := toUint8 ((b1.drop 3).take 1),
              payload := if n - 4 > 0 then b1.drop 4 else [] } := by
  rcases hcp : l.compress with _ | cp
  · simp [parseTail, hcp]
  · rcases h with h | h
    · exact absurd h (by simp [hcp])
    · simp [parseTail, hcp, h]

theorem parseTail_unc (l : LTD) (cp : CompressInst) (flag sn : Nat)
    (b1 b2 : List Nat) (n : Nat) (hcp : l.compress = some cp)
    (h1 : flag &&& FlagCompress ≠ 0) (hunc : cp.uncompress b1 = some b2) :
    parseTail l flag sn b1 n
      = .ok { flag := flag, sn := sn, code := 0,
              module := toUint8 ((b2.drop 2).take 1),
              action := toUint8 ((b2.drop 3).take 1),
              payload := if n - 4 > 0 then b2.drop 4 else [] } := by
  simp [parseTail, hcp, h1, hunc]

theorem parse_body0_ok (flag sn : Nat) (m : Message) (n : Nat)
    (hmod : m.module < 256) (hact : m.action < 256)
    (hpay : m.payload = [] ∨ 4 < n) :
    (Except.ok (Message.mk flag sn 0
      (toUint8 (((uint16BE m.code ++
        [m.module % 256, m.action % 256] ++ m.payload).drop 2).take 1))
      (toUint8 (((uint16BE m.code ++
        [m.module % 256, m.action % 256] ++ m.payload).drop 3).take 1))
      (if n - 4 > 0 then
        (uint16BE m.code ++ [m.module % 256, m.action % 256] ++
          m.payload).drop 4 else [])) : Except UErr Message)
    = .ok ⟨flag, sn, 0, m.module, m.action, m.payload⟩ := by
  rw [body0_module m hmod, body0_action m hact, body0_payload m n hpay]

/-- The decrypt/decompress/parse stage inverts `packBody` on the fields the
source round-trips, when the cipher and compressor invert. -/
theorem parseBody_packBody (l : LTD) (co : Option CryptoInst) (m : Message)
    (hmod : m.module < 256) (hact : m.action < 256)
    (hnd : m.flag &&& 273 = 0)
    (hcr : ∀ cr b, co = some cr → cr.decrypt (cr.encrypt b) = some b)
    (hcpinv : ∀ cp b, l.compress = some cp →
      cp.uncompress (cp.compress b) = some b)
    (hpay : m.payload = [] ∨ 4 < (packBody l co m).1.length) :
    parseBody l co (packedFlag l co m) m.sn (packBody l co m).1
        (packBody l co m).1.length
      = .ok ⟨packedFlag l co m, m.sn, 0, m.module, m.action, m.payload⟩ := by
  have hf1 : m.flag &&& 1 = 0 := land_one_of_273 hnd
  have hf16 : m.flag &&& 16 = 0 := land_16_of_273 hnd
  have hd1 : packedFlag l co m &&& 1 = (packBody l co m).2 &&& 1 :=
    packedFlag_land_256_disjoint _ _ _ _ (by decide)
  have hd16 : packedFlag l co m &&& 16 = (packBody l co m).2 &&& 16 :=
    packedFlag_land_256_disjoint _ _ _ _ (by decide)
  have hd4096 : packedFlag l co m &&& 4096 = (packBody l co m).2 &&& 4096 :=
    packedFlag_land_256_disjoint _ _ _ _ (by decide)
  rcases hco : co with _ | cr <;> subst hco
  · rcases hLcp : l.compress with _ | cp
    · have hPB1 : (packBody l none m).1
          = uint16BE m.code ++ [m.module % 256, m.action % 256] ++
            m.payload := by
        simp only [packBody, hLcp]
      have hPB2 : (packBody l none m).2 = m.flag := by
        simp only [packBody, hLcp]
      rw [hPB1] at hpay ⊢
      rw [hPB2] at hd1 hd16 hd4096
      rw [parseBody_skip_dec _ _ _ _ _ _ (Or.inl rfl),
        parseTail_skip _ _ _ _ _ (Or.inl hLcp)]
      exact parse_body0_ok _ _ m _ hmod hact hpay
    · by_cases hcg : (l.whetherCompress &&
          decide ((uint16BE m.code ++ [m.module % 256, m.action % 256] ++
            m.payload).length ≥ l.compressThreshold)) = true
      · have hPB1 : (packBody l none m).1
            = cp.compress (uint16BE m.code ++
                [m.module % 256, m.action % 256] ++ m.payload) := by
          simp only [packBody, hLcp]
          rw [if_pos hcg]
        have hPB2 : (packBody l none m).2 = m.flag ||| 1 := by
          simp only [packBody, hLcp]
          rw [if_pos hcg]
          rfl
        rw [hPB1] at hpay ⊢
        rw [hPB2] at hd1 hd16 hd4096
        rw [parseBody_skip_dec _ _ _ _ _ _ (Or.inl rfl),
          parseTail_unc l cp _ _ _ _ _ hLcp
            (by rw [show FlagCompress = 1 from rfl, hd1,
              lor_land_self_1]; norm_num)
            (hcpinv cp _ hLcp)]
        exact parse_body0_ok _ _ m _ hmod hact hpay
      · have hPB1 : (packBody l none m).1
            = uint16BE m.code ++ [m.module % 256, m.action % 256] ++
              m.payload := by
          simp only [packBody, hLcp]
          rw [if_neg hcg]
        have hPB2 : (packBody l none m).2 = m.flag := by
          simp only [packBody, hLcp]
          rw [if_neg hcg]
        rw [hPB1] at hpay ⊢
        rw [hPB2] at hd1 hd16 hd4096
        rw [parseBody_skip_dec _ _ _ _ _ _ (Or.inl rfl),
          parseTail_skip _ _ _ _ _ (Or.inr (by
            rw [show FlagCompress = 1 from rfl, hd1]; exact hf1))]
        exact parse_body0_ok _ _ m _ hmod hact hpay
  · rcases hLcp : l.compress with _ | cp
    · by_cases heg : (l.whetherCrypto &&
          decide (m.flag &&& FlagZero = 0)) = true
      · have hz : m.flag &&& 4096 = 0 := by
          have h2 := ((Bool.and_eq_true _ _).mp heg).2
          simpa [FlagZero] using of_decide_eq_true h2
        have hPB1 : (packBody l (some cr) m).1
            = cr.encrypt (uint16BE m.code ++
                [m.module % 256, m.action % 256] ++ m.payload) := by
          simp only [packBody, hLcp]
          rw [if_pos heg]
        have hPB2 : (packBody l (some cr) m).2 = m.flag ||| 16 := by
          simp only [packBody, hLcp]
          rw [if_pos heg]
          rfl
        rw [hPB1] at hpay ⊢
        rw [hPB2] at hd1 hd16 hd4096
        rw [parseBody_dec l cr _ _ _ _ _
            (by rw [show FlagEncrypt = 16 from rfl, hd16,
              lor_land_self_16]; norm_num)
            (by rw [show FlagZero = 4096 from rfl, hd4096,
              lor_land_of_disjoint _ (by decide)]; exact hz)
            (hcr cr _ rfl),
          parseTail_skip _ _ _ _ _ (Or.inl hLcp)]
        exact parse_body0_ok _ _ m _ hmod hact hpay
      · have hPB1 : (packBody l (some cr) m).1
            = uint16BE m.code ++ [m.module % 256, m.action % 256] ++
              m.payload := by
          simp only [packBody, hLcp]
          rw [if_neg heg]
        have hPB2 : (packBody l (some cr) m).2 = m.flag := by
          simp only [packBody, hLcp]
          rw [if_neg heg]
        rw [hPB1] at hpay ⊢
        rw [hPB2] at hd1 hd16 hd4096
        rw [parseBody_skip_dec _ _ _ _ _ _ (Or.inr (Or.inl (by
            rw [show FlagEncrypt = 16 from rfl, hd16]; exact hf16))),
          parseTail_skip _ _ _ _ _ (Or.inl hLcp)]
        exact parse_body0_ok _ _ m _ hmod hact hpay
    · by_cases hcg : (l.whetherCompress &&
          decide ((uint16BE m.code ++ [m.module % 256, m.action % 256] ++
            m.payload).length ≥ l.compressThreshold)) = true
      · by_cases heg : (l.whetherCrypto &&
            decide ((m.flag ||| FlagCompress) &&& FlagZero = 0)) = true
        · have hz : (m.flag ||| 1) &&& 4096 = 0 := by
            have h2 := ((Bool.and_eq_true _ _).mp heg).2
            simpa [FlagCompress, FlagZero] using of_decide_eq_true h2
          have hPB1 : (packBody l (some cr) m).1
              = cr.encrypt (cp.compress (uint16BE m.code ++
                  [m.module % 256, m.action % 256] ++ m.payload)) := by
            simp only [packBody, hLcp]
            rw [if_pos hcg, if_pos heg]
          have hPB2 : (packBody l (some cr) m).2
              = m.flag ||| 1 ||| 16 := by
            simp only [packBody, hLcp]
            rw [if_pos hcg, if_pos heg]
            rfl
          rw [hPB1] at hpay ⊢
          rw [hPB2] at hd1 hd16 hd4096
          rw [parseBody_dec l cr _ _ _ _ _
              (by rw [show FlagEncrypt = 16 from rfl, hd16,
                lor_land_self_16]; norm_num)
              (by rw [show FlagZero = 4096 from rfl, hd4096,
                lor_land_of_disjoint _ (by decide)]; exact hz)
              (hcr cr _ rfl),
            parseTail_unc l cp _ _ _ _ _ hLcp
              (by rw [show FlagCompress = 1 from rfl, hd1,
                lor_land_of_disjoint _ (by decide),
                lor_land_self_1]; norm_num)
              (hcpinv cp _ hLcp)]
          exact parse_body0_ok _ _ m _ hmod hact hpay
        · have hPB1 : (packBody l (some cr) m).1
              = cp.compress (uint16BE m.code ++
                  [m.module % 256, m.action % 256] ++ m.payload) := by
            simp only [packBody, hLcp]
            rw [if_pos hcg, if_neg heg]
          have hPB2 : (packBody l (some cr) m).2 = m.flag ||| 1 := by
            simp only [packBody, hLcp]
            rw [if_pos hcg, if_neg heg]
            rfl
          rw [hPB1] at hpay ⊢
          rw [hPB2] at hd1 hd16 hd4096
          rw [parseBody_skip_dec _ _ _ _ _ _ (Or.inr (Or.inl (by
              rw [show FlagEncrypt = 16 from rfl, hd16,
                lor_land_of_disjoint _ (by decide)]
              exact hf16))),
            parseTail_unc l cp _ _ _ _ _ hLcp
              (by rw [show FlagCompress = 1 from rfl, hd1,
                lor_land_self_1]; norm_num)
              (hcpinv cp _ hLcp)]
          exact parse_body0_ok _ _ m _ hmod hact hpay
      · by_cases heg : (l.whetherCrypto &&
            decide (m.flag &&& FlagZero = 0)) = true
        · have hz : m.flag &&& 4096 = 0 := by
            have h2 := ((Bool.and_eq_true _ _).mp heg).2
            simpa [FlagZero] using of_decide_eq_true h2
          have hPB1 : (packBody l (some cr) m).1
              = cr.encrypt (uint16BE m.code ++
                  [m.module % 256, m.action % 256] ++ m.payload) := by
            simp only [packBody, hLcp]
            rw [if_neg hcg, if_pos heg]
          have hPB2 : (packBody l (some cr) m).2 = m.flag ||| 16 := by
            simp only [packBody, hLcp]
            rw [if_neg hcg, if_pos heg]
            rfl
          rw [hPB1] at hpay ⊢
          rw [hPB2] at hd1 hd16 hd4096
          rw [parseBody_dec l cr _ _ _ _ _
              (by rw [show FlagEncrypt = 16 from rfl, hd16,
                lor_land_self_16]; norm_num)
              (by rw [show FlagZero = 4096 from rfl, hd4096,
                lor_land_of_disjoint _ (by decide)]; exact hz)
              (hcr cr _ rfl),
            parseTail_skip _ _ _ _ _ (Or.inr (by
              rw [show FlagCompress = 1 from rfl, hd1,
                lor_land_of_disjoint _ (by decide)]
              exact hf1))]
          exact parse_body0_ok _ _ m _ hmod hact hpay
        · have hPB1 : (packBody l (some cr) m).1
              = uint16BE m.code ++ [m.module % 256, m.action % 256] ++
                m.payload := by
            simp only [packBody, hLcp]
            rw [if_neg hcg, if_neg heg]
          have hPB2 : (packBody l (some cr) m).2 = m.flag := by
            simp only [packBody, hLcp]
            rw [if_neg hcg, if_neg heg]
          rw [hPB1] at hpay ⊢
          rw [hPB2] at hd1 hd16 hd4096
          rw [parseBody_skip_dec _ _ _ _ _ _ (Or.inr (Or.inl (by
              rw [show FlagEncrypt = 16 from rfl, hd16]; exact hf16))),
            parseTail_skip _ _ _ _ _ (Or.inr (by
              rw [show FlagCompress = 1 from rfl, hd1]
              exact hf1))]
          exact parse_body0_ok _ _ m _ hmod hact hpay

theorem packBody_flag_cases (l : LTD) (co : Option CryptoInst) (m : Message) :
    (packBody l co m).2 = m.flag ∨ (packBody l co m).2 = m.flag ||| 1 ∨
    (packBody l co m).2 = m.flag ||| 16 ∨
    (packBody l co m).2 = m.flag ||| 1 ||| 16 := by
  obtain ⟨wc, ct, cmp, wcr, wch, hmf⟩ := l
  cases co <;> cases cmp <;> dsimp only [packBody] <;> (try split_ifs) <;>
    first
    | exact Or.inl rfl
    | exact Or.inr (Or.inl rfl)
    | exact Or.inr (Or.inr (Or.inl rfl))
    | exact Or.inr (Or.inr (Or.inr rfl))

theorem packBody_flag_lt (l : LTD) (co : Option CryptoInst) (m : Message)
    (h : m.flag < 65536) : (packBody l co m).2 < 65536 := by
  rcases packBody_flag_cases l co m with h1 | h1 | h1 | h1 <;> rw [h1]
  · exact h
  · exact lor_lt_65536 h (by norm_num)
  · exact lor_lt_65536 h (by norm_num)
  · exact lor_lt_65536 (lor_lt_65536 h (by norm_num)) (by norm_num)

theorem packedFlag_lt (l : LTD) (co : Option CryptoInst) (m : Message)
    (h : m.flag < 65536) : packedFlag l co m < 65536 := by
  unfold packedFlag
  cases l.whetherChecksum
  · simpa using packBody_flag_lt l co m h
  · simp only [if_true]
    exact lor_lt_65536 (packBody_flag_lt l co m h) (by norm_num [FlagChecksum])

/-- The packed flag agrees with the original flag outside the derived bits
`FlagCompress ||| FlagEncrypt ||| FlagChecksum = 0x111`: masking with
`0xFEEE` recovers the original flag. -/
theorem packedFlag_strip (l : LTD) (co : Option CryptoInst) (m : Message)
    (hlt : m.flag < 65536) (hnd : m.flag &&& 273 = 0) :
    packedFlag l co m &&& 65262 = m.flag := by
  have hstep : (packBody l co m).2 &&& 65262 = m.flag &&& 65262 := by
    rcases packBody_flag_cases l co m with h1 | h1 | h1 | h1
    · rw [h1]
    · rw [h1, @lor_land_of_disjoint 1 65262 m.flag (by decide)]
    · rw [h1, @lor_land_of_disjoint 16 65262 m.flag (by decide)]
    · rw [h1, @lor_land_of_disjoint 16 65262 (m.flag ||| 1) (by decide),
        @lor_land_of_disjoint 1 65262 m.flag (by decide)]
  have hpf : packedFlag l co m &&& 65262 = m.flag &&& 65262 := by
    unfold packedFlag
    cases l.whetherChecksum
    · simpa using hstep
    · simp only [if_true]
      rw [@lor_land_of_disjoint FlagChecksum 65262 ((packBody l co m).2) (by decide)]
      exact hstep
  rw [hpf, land_mask_self hlt hnd]

/-- The message `Unpack` reconstructs from `Pack m`. -/
def unpackImage (l : LTD) (co : Option CryptoInst) (m : Message) : Message :=
  ⟨packedFlag l co m, m.sn, 0, m.module, m.action, m.payload⟩

/-- Contracts of the external collaborators: HMAC-MD5 produces 16 bytes,
the cipher and compressor invert. -/
def CfgInv (l : LTD) (co : Option CryptoInst) (k : List Nat) : Prop :=
  (∀ d, (l.hmac d k).length = ChecksumLength) ∧
  (∀ cr b, co = some cr → cr.decrypt (cr.encrypt b) = some b) ∧
  (∀ cp b, l.compress = some cp → cp.uncompress (cp.compress b) = some b)

/-- Well-formedness of a message for the round trip: 16-bit `flag`/`sn`,
8-bit `module`/`action`, no derived flag bits set, transformed body small
enough for the 16-bit length field, and payloads that survive the
`bodyLen - 4 > 0` slicing of `Unpack`. -/
def GoodMsg (l : LTD) (co : Option CryptoInst) (m : Message) : Prop :=
  m.flag < 65536 ∧ m.sn < 65536 ∧ m.module < 256 ∧ m.action < 256 ∧
  m.flag &&& 273 = 0 ∧ (packBody l co m).1.length < 65536 ∧
  (m.payload = [] ∨ 4 < (packBody l co m).1.length)

theorem unpackFrame_Pack (l : LTD) (co : Option CryptoInst) (k : List Nat)
    (m : Message) (hcfg : CfgInv l co k) (hm : GoodMsg l co m) :
    unpackFrame l co k (Pack l co k m) (packBody l co m).1.length
      = .ok (unpackImage l co m) := by
  obtain ⟨hlen16, hcr, hcp⟩ := hcfg
  obtain ⟨hflag, hsn, hmod, hact, hnd, hblt, hpay⟩ := hm
  rw [Pack_eq_assembleFrame]
  have hres := unpackFrame_assembleFrame l co k m.sn (packBody l co m).1
    (packBody l co m).2 hsn hblt (packBody_flag_lt l co m hflag) hlen16
  rw [show ((packBody l co m).1, (packBody l co m).2)
    = packBody l co m from rfl] at hres
  rw [hres, show (if l.whetherChecksum then
      (packBody l co m).2 ||| FlagChecksum else (packBody l co m).2)
    = packedFlag l co m from rfl]
  exact parseBody_packBody l co m hmod hact hnd hcr hcp hpay

theorem headLen_ge_6 (l : LTD) : 6 ≤ l.headLen := by
  unfold LTD.headLen ltdHeadLen
  cases l.whetherChecksum <;> simp [ChecksumLength]

theorem unpackLoop_nil (l : LTD) (co : Option CryptoInst) (k : List Nat)
    (fuel : Nat) : unpackLoop l co k fuel [] = .ok ([], []) := by
  cases fuel
  · rfl
  · simp only [unpackLoop]
    rw [if_pos]
    have := headLen_ge_6 l
    simp
    omega

/-- A buffer shorter than one whole frame is left untouched. -/
theorem unpackLoop_short (l : LTD) (co : Option CryptoInst) (k : List Nat)
    (fuel : Nat) (buffer : List Nat)
    (h : buffer.length < l.headLen + toUint16 (buffer.take 2)) :
    unpackLoop l co k fuel buffer = .ok ([], buffer) := by
  cases fuel
  · rfl
  · simp only [unpackLoop]
    by_cases h6 : buffer.length < l.headLen
    · rw [if_pos h6]
    · rw [if_neg h6, if_pos h]

theorem unpackLoop_fuel (l : LTD) (co : Option CryptoInst) (k : List Nat) :
    ∀ (f1 f2 : Nat) (buffer : List Nat), buffer.length ≤ f1 →
      buffer.length ≤ f2 →
      unpackLoop l co k f1 buffer = unpackLoop l co k f2 buffer := by
  intro f1
  induction f1 with
  | zero =>
    intro f2 buffer h1 _
    have hb : buffer = [] := List.eq_nil_of_length_eq_zero (by omega)
    subst hb
    rw [unpackLoop_nil, unpackLoop_nil]
  | succ s1 ih =>
    intro f2 buffer h1 h2
    cases f2 with
    | zero =>
      have hb : buffer = [] := List.eq_nil_of_length_eq_zero (by omega)
      subst hb
      rw [unpackLoop_nil, unpackLoop_nil]
    | succ s2 =>
      simp only [unpackLoop]
      by_cases h6 : buffer.length < l.headLen
      · rw [if_pos h6, if_pos h6]
      · rw [if_neg h6, if_neg h6]
        by_cases hb : buffer.length < l.headLen +
          toUint16 (buffer.take 2)
        · rw [if_pos hb, if_pos hb]
        · rw [if_neg hb, if_neg hb]
          have hrest : (buffer.drop (l.headLen +
              toUint16 (buffer.take 2))).length ≤ s1 ∧
              (buffer.drop (l.headLen +
              toUint16 (buffer.take 2))).length ≤ s2 := by
            have h6' := headLen_ge_6 l
            simp only [List.length_drop]
            omega
          rw [ih s2 _ hrest.1 hrest.2]

/-- Consuming one complete leading frame from the loop. -/
theorem unpackLoop_frame (l : LTD) (co : Option CryptoInst) (k : List Nat)
    (frame : List Nat) (n : Nat) (msg : Message) (tail : List Nat)
    (fuel : Nat)
    (hflen : frame.length = l.headLen + n)
    (htk : toUint16 (frame.take 2) = n)
    (huf : unpackFrame l co k frame n = .ok msg) :
    unpackLoop l co k (fuel + 1) (frame ++ tail)
      = match unpackLoop l co k fuel tail with
        | .error e => .error e
        | .ok (msgs, rem) => .ok (msg :: msgs, rem) := by
  have h6' := headLen_ge_6 l
  have hlen : (frame ++ tail).length = l.headLen + n + tail.length := by
    simp [hflen]
  simp only [unpackLoop]
  rw [if_neg (by omega)]
  have htk2 : toUint16 ((frame ++ tail).take 2) = n := by
    rw [List.take_append_of_le_length (by omega), htk]
  rw [htk2, if_neg (by omega),
    List.take_left' (by omega : frame.length = l.headLen + n),
    List.drop_left' (by omega : frame.length = l.headLen + n), huf]

theorem Pack_length (l : LTD) (co : Option CryptoInst) (k : List Nat)
    (m : Message) :
    (Pack l co k m).length = l.headLen + (packBody l co m).1.length := by
  rw [Pack_eq_assembleFrame]
  exact assembleFrame_length l k m.sn (packBody l co m)

theorem Pack_take2 (l : LTD) (co : Option CryptoInst) (k : List Nat)
    (m : Message) (hblt : (packBody l co m).1.length < 65536) :
    toUint16 ((Pack l co k m).take 2) = (packBody l co m).1.length := by
  rw [Pack_eq_assembleFrame, assembleFrame_take2,
    toUint16_uint16BE_of_lt hblt]

/-- A packed frame followed by anything: `Unpack` peels off exactly the
round-tripped message and continues on the rest. -/
theorem Unpack_frame_cons (l : LTD) (co : Option CryptoInst) (k : List Nat)
    (m : Message) (tail : List Nat)
    (hcfg : CfgInv l co k) (hm : GoodMsg l co m) :
    Unpack l co k (Pack l co k m ++ tail)
      = match Unpack l co k tail with
        | .error e => .error e
        | .ok (msgs, rem) => .ok (unpackImage l co m :: msgs, rem) := by
  have h6' := headLen_ge_6 l
  have hplen := Pack_length l co k m
  have hfr : (Pack l co k m ++ tail).length
      = (Pack l co k m).length + tail.length := by simp
  have hpos : 1 ≤ (Pack l co k m ++ tail).length := by
    rw [hfr, hplen]
    omega
  obtain ⟨fu, hfu⟩ : ∃ fu, (Pack l co k m ++ tail).length = fu + 1 :=
    ⟨(Pack l co k m ++ tail).length - 1, by omega⟩
  unfold Unpack
  rw [hfu, unpackLoop_frame l co k (Pack l co k m)
    ((packBody l co m).1.length) (unpackImage l co m) tail fu hplen
    (Pack_take2 l co k m hm.2.2.2.2.2.1)
    (unpackFrame_Pack l co k m hcfg hm),
    unpackLoop_fuel l co k fu tail.length tail (by
      rw [hfr, hplen] at hfu
      omega) (le_refl _)]

theorem toUint16_short (bs : List Nat) (h : bs.length < 2) :
    toUint16 bs = 0 := by
  match bs, h with
  | [], _ => rfl
  | [a], _ => rfl

theorem Unpack_short (l : LTD) (co : Option CryptoInst) (k : List Nat)
    (buffer : List Nat)
    (h : buffer.length < l.headLen + toUint16 (buffer.take 2)) :
    Unpack l co k buffer = .ok ([], buffer) :=
  unpackLoop_short l co k buffer.length buffer h

theorem Unpack_nil (l : LTD) (co : Option CryptoInst) (k : List Nat) :
    Unpack l co k [] = .ok ([], []) := rfl

/-- A whole stream of packed frames unpacks to the images in order with
nothing left over. -/
theorem Unpack_full (l : LTD) (co : Option CryptoInst) (k : List Nat)
    (msgs : List Message) (hcfg : CfgInv l co k)
    (hms : ∀ m ∈ msgs, GoodMsg l co m) :
    Unpack l co k (msgs.map (Pack l co k)).join
      = .ok (msgs.map (unpackImage l co), []) := by
  induction msgs with
  | nil => simpa using Unpack_nil l co k
  | cons m ms ih =>
    simp only [List.map_cons, List.join_cons]
    rw [Unpack_frame_cons l co k m _ hcfg (hms m (by simp)),
      ih (fun x hx => hms x (by simp [hx]))]

/-- Number of bytes of the complete frames within the first `t` bytes of a
stream whose frames have the given lengths. -/
def completeLen : List Nat → Nat → Nat
  | [], _ => 0
  | L :: rest, t => if L ≤ t then L + completeLen rest (t - L) else 0

/-- Number of complete frames within the first `t` bytes. -/
def completeCount : List Nat → Nat → Nat
  | [], _ => 0
  | L :: rest, t => if L ≤ t then 1 + completeCount rest (t - L) else 0

/-- Truncating a packed stream at any byte offset: `Unpack` returns exactly
the complete messages and leaves the partial frame bytes in the buffer;
appending the missing bytes and unpacking again yields the remaining
messages. -/
theorem Unpack_stream_split (l : LTD) (co : Option CryptoInst)
    (k : List Nat) (msgs : List Message) (t : Nat)
    (hcfg : CfgInv l co k) (hms : ∀ m ∈ msgs, GoodMsg l co m) :
    Unpack l co k (((msgs.map (Pack l co k)).flatten).take t)
      = .ok ((msgs.take
            (completeCount ((msgs.map (Pack l co k)).map List.length) t)).map
          (unpackImage l co),
          (((msgs.map (Pack l co k)).flatten).take t).drop
            (completeLen ((msgs.map (Pack l co k)).map List.length) t))
    ∧ Unpack l co k
        ((((msgs.map (Pack l co k)).flatten).take t).drop
          (completeLen ((msgs.map (Pack l co k)).map List.length) t) ++
         ((msgs.map (Pack l co k)).flatten).drop t)
      = .ok ((msgs.drop
            (completeCount ((msgs.map (Pack l co k)).map List.length) t)).map
          (unpackImage l co), []) := by
  induction msgs generalizing t with
  | nil =>
    simp only [List.map_nil, List.flatten_nil, List.take_nil, List.drop_nil,
      completeCount, completeLen, List.take_nil]
    exact ⟨Unpack_nil l co k, by simpa using Unpack_nil l co k⟩
  | cons m ms ih =>
    have hmg := hms m (by simp)
    have hmsrest : ∀ x ∈ ms, GoodMsg l co x := fun x hx => hms x (by simp [hx])
    simp only [List.map_cons, List.flatten_cons, completeCount, completeLen,
      List.length_map]
    by_cases hLe : (Pack l co k m).length ≤ t
    · rw [if_pos hLe, if_pos hLe]
      have htsplit : t = (Pack l co k m).length +
          (t - (Pack l co k m).length) := by omega
      have htake : (Pack l co k m ++ (ms.map (Pack l co k)).flatten).take t
          = Pack l co k m ++
            ((ms.map (Pack l co k)).flatten).take
              (t - (Pack l co k m).length) := by
        conv_lhs => rw [htsplit]
        exact List.take_append _
      have hdropt : (Pack l co k m ++ (ms.map (Pack l co k)).flatten).drop t
          = ((ms.map (Pack l co k)).flatten).drop
              (t - (Pack l co k m).length) := by
        conv_lhs => rw [htsplit]
        exact List.drop_append _
      obtain ⟨ih1, ih2⟩ := ih (t - (Pack l co k m).length) hmsrest
      constructor
      · rw [htake, Unpack_frame_cons l co k m _ hcfg hmg, ih1]
        dsimp only
        rw [Nat.add_comm 1 (completeCount _ _), List.take_succ_cons,
          List.map_cons, List.drop_append _]
      · rw [htake, List.drop_append _, hdropt,
          Nat.add_comm 1 (completeCount _ _), List.drop_succ_cons]
        exact ih2
    · rw [if_neg hLe, if_neg hLe]
      have ht2 : t ≤ (Pack l co k m).length := by omega
      have htake : (Pack l co k m ++ (ms.map (Pack l co k)).flatten).take t
          = (Pack l co k m).take t := List.take_append_of_le_length ht2
      have hlt : ((Pack l co k m).take t).length = t := by
        simp [List.length_take]
        omega
      have h6' := headLen_ge_6 l
      have hshort : Unpack l co k ((Pack l co k m).take t)
          = .ok ([], (Pack l co k m).take t) := by
        apply Unpack_short
        rw [hlt]
        by_cases ht2' : 2 ≤ t
        · have : ((Pack l co k m).take t).take 2 = (Pack l co k m).take 2 := by
            rw [List.take_take]
            congr 1
            omega
          rw [this, Pack_take2 l co k m hmg.2.2.2.2.2.1]
          have := Pack_length l co k m
          omega
        · rw [toUint16_short _ (by simp [List.length_take]; omega)]
          omega
      constructor
      · rw [htake, hshort]
        simp
      · rw [List.drop_zero, List.take_append_drop]
        have := Unpack_full l co k (m :: ms) hcfg hms
        simpa using this

theorem packBody_land_4096 (l : LTD) (co : Option CryptoInst) (m : Message) :
    (packBody l co m).2 &&& 4096 = m.flag &&& 4096 := by
  rcases packBody_flag_cases l co m with h1 | h1 | h1 | h1
  · rw [h1]
  · rw [h1, @lor_land_of_disjoint 1 4096 m.flag (by decide)]
  · rw [h1, @lor_land_of_disjoint 16 4096 m.flag (by decide)]
  · rw [h1, @lor_land_of_disjoint 16 4096 (m.flag ||| 1) (by decide),
      @lor_land_of_disjoint 1 4096 m.flag (by decide)]

/-- On `FlagZero` messages `packBody` never encrypts: the crypto instance
is irrelevant. -/
theorem packBody_flagzero (l : LTD) (c : CryptoInst) (m : Message)
    (hz : m.flag &&& FlagZero ≠ 0) :
    packBody l (some c) m = packBody l none m := by
  rcases hLcp : l.compress with _ | cp
  · simp only [packBody, hLcp]
    rw [if_neg (by
      intro hcon
      exact hz (of_decide_eq_true ((Bool.and_eq_true _ _).mp hcon).2))]
  · by_cases hcg : (l.whetherCompress &&
        decide ((uint16BE m.code ++ [m.module % 256, m.action % 256] ++
          m.payload).length ≥ l.compressThreshold)) = true
    · simp only [packBody, hLcp]
      rw [if_pos hcg, if_neg (by
        intro hcon
        have h2 : (m.flag ||| FlagCompress) &&& FlagZero = 0 :=
          of_decide_eq_true ((Bool.and_eq_true _ _).mp hcon).2
        rw [@lor_land_of_disjoint FlagCompress FlagZero m.flag
          (by decide)] at h2
        exact hz h2)]
    · simp only [packBody, hLcp]
      rw [if_neg hcg, if_neg (by
        intro hcon
        have h2 : m.flag &&& FlagZero = 0 :=
          of_decide_eq_true ((Bool.and_eq_true _ _).mp hcon).2
        exact hz h2)]

/-- On `FlagZero` frames the checksum slot is never filled: the frame is
the raw header, a zero slot (when checksums are on), and the body. -/
theorem assembleFrame_flagzero (l : LTD) (k : List Nat) (sn : Nat)
    (bf : List Nat × Nat) (hz : bf.2 &&& FlagZero ≠ 0) :
    assembleFrame l k sn bf
      = uint16BE bf.1.length ++
        uint16BE (if l.whetherChecksum then bf.2 ||| FlagChecksum
          else bf.2) ++
        uint16BE sn ++
        (if l.whetherChecksum then List.replicate ChecksumLength 0
          else []) ++ bf.1 := by
  unfold assembleFrame
  cases hc : l.whetherChecksum
  · simp [hc]
  · simp only [hc, if_true]
    rw [if_neg (by
      intro hcon
      have h2 : (bf.2 ||| FlagChecksum) &&& FlagZero = 0 :=
        of_decide_eq_true ((Bool.and_eq_true _ _).mp hcon).2
      rw [@lor_land_of_disjoint FlagChecksum FlagZero bf.2 (by decide)]
        at h2
      exact hz h2)]

/-- On a `FlagZero` frame `unpackFrame` neither decrypts nor verifies: the
result does not depend on the crypto instance, the HMAC function or the
checksum key. -/
theorem unpackFrame_flagzero_indep (l : LTD)
    (h1 h2 : List Nat → List Nat → List Nat) (c : CryptoInst)
    (k1 k2 : List Nat) (allBytes : List Nat) (bodyLen : Nat)
    (hfz : readU16 allBytes 2 &&& FlagZero ≠ 0) :
    unpackFrame { l with hmac := h1 } (some c) k1 allBytes bodyLen
      = unpackFrame { l with hmac := h2 } none k2 allBytes bodyLen := by
  simp only [unpackFrame]
  by_cases hcf : (l.whetherChecksum &&
      decide (readU16 allBytes 2 &&& FlagChecksum = 0)) = true
  · rw [if_pos hcf, if_pos hcf]
  · rw [if_neg hcf, if_neg hcf]
    have hz2 : ∀ b : Bool, ¬((l.whetherChecksum &&
        decide (readU16 allBytes 2 &&& FlagZero = 0) && b) = true) := by
      intro b hcon
      have hmid := ((Bool.and_eq_true _ _).mp
        ((Bool.and_eq_true _ _).mp hcon).1).2
      exact hfz (of_decide_eq_true hmid)
    rw [if_neg (hz2 _), if_neg (hz2 _)]
    have hgate : ¬((decide (readU16 allBytes 2 &&& FlagEncrypt ≠ 0) &&
        decide (readU16 allBytes 2 &&& FlagZero = 0)) = true) := by
      intro hcon
      exact hfz (of_decide_eq_true ((Bool.and_eq_true _ _).mp hcon).2)
    rw [if_neg hgate]
    rfl

/-- If the first complete frame errors, the whole `Unpack` call errors. -/
theorem Unpack_step_error (l : LTD) (co : Option CryptoInst) (k : List Nat)
    (buffer : List Nat) (e : UErr)
    (hcomplete : l.headLen + toUint16 (buffer.take 2) ≤ buffer.length)
    (he : unpackFrame l co k
        (buffer.take (l.headLen + toUint16 (buffer.take 2)))
        (toUint16 (buffer.take 2)) = .error e) :
    Unpack l co k buffer = .error e := by
  have h6' := headLen_ge_6 l
  obtain ⟨fu, hfu⟩ : ∃ fu, buffer.length = fu + 1 :=
    ⟨buffer.length - 1, by omega⟩
  unfold Unpack
  rw [hfu]
  simp only [unpackLoop]
  rw [if_neg (by omega), if_neg (by omega), he]

theorem unpackFrame_noflag (l : LTD) (co : Option CryptoInst) (k : List Nat)
    (allBytes : List Nat) (bodyLen : Nat) (hc : l.whetherChecksum = true)
    (h0 : readU16 allBytes 2 &&& FlagChecksum = 0) :
    unpackFrame l co k allBytes bodyLen = .error .noChecksumFlag := by
  simp only [unpackFrame]
  rw [if_pos (by simp [hc, h0])]

theorem unpackFrame_badsum (l : LTD) (co : Option CryptoInst) (k : List Nat)
    (allBytes : List Nat) (bodyLen : Nat) (hc : l.whetherChecksum = true)
    (hflag : readU16 allBytes 2 &&& FlagChecksum ≠ 0)
    (hz : readU16 allBytes 2 &&& FlagZero = 0)
    (hbad : ltdVerifyChecksum l ((allBytes.drop 6).take ChecksumLength)
      allBytes k = false) :
    unpackFrame l co k allBytes bodyLen = .error .verifyChecksum := by
  simp only [unpackFrame]
  rw [if_neg (by simp [hc, hflag]), if_pos (by simp [hc, hz, hbad])]

/-- Verification succeeds (`ltdVerifyChecksum` is `true`) exactly when the carried checksum equals
the HMAC recomputed over the zero-slot bytes. -/
theorem ltdVerifyChecksum_iff (l : LTD) (checksum allBytes checksumKey :
    List Nat) :
    ltdVerifyChecksum l checksum allBytes checksumKey = true
      ↔ checksum = l.hmac (overwriteFrom allBytes 6
          (List.replicate ChecksumLength 0)) checksumKey := by
  unfold ltdVerifyChecksum
  rw [show ltdHeadLen true - ChecksumLength = 6 from rfl]
  exact beq_iff_eq

theorem parseBody_error_cases (l : LTD) (co : Option CryptoInst)
    (flag sn : Nat) (b : List Nat) (n : Nat) (e : UErr)
    (h : parseBody l co flag sn b n = .error e) :
    e = .decryptPayload ∨ e = .decompressPayload := by
  rcases co with _ | cr <;> rcases hcp : l.compress with _ | cp <;>
    simp only [parseBody, hcp] at h
  · exact absurd h (by simp)
  · by_cases hg : (decide (flag &&& FlagCompress ≠ 0)) = true
    · rw [if_pos hg] at h
      cases huc : cp.uncompress b <;> rw [huc] at h
      · right
        exact ((Except.error.injEq _ _).mp h).symm
      · exact absurd h (by simp)
    · rw [if_neg hg] at h
      exact absurd h (by simp)
  · by_cases hg : (decide (flag &&& FlagEncrypt ≠ 0) &&
        decide (flag &&& FlagZero = 0)) = true
    · rw [if_pos hg] at h
      cases hdc : cr.decrypt b <;> rw [hdc] at h
      · left
        exact ((Except.error.injEq _ _).mp h).symm
      · exact absurd h (by simp)
    · rw [if_neg hg] at h
      exact absurd h (by simp)
  · by_cases hg : (decide (flag &&& FlagEncrypt ≠ 0) &&
        decide (flag &&& FlagZero = 0)) = true
    · rw [if_pos hg] at h
      cases hdc : cr.decrypt b <;> rw [hdc] at h <;> dsimp only at h
      · left
        exact ((Except.error.injEq _ _).mp h).symm
      · by_cases hg2 : (decide (flag &&& FlagCompress ≠ 0)) = true
        · rw [if_pos hg2] at h
          rename_i b1
          cases huc : cp.uncompress b1 <;> rw [huc] at h
          · right
            exact ((Except.error.injEq _ _).mp h).symm
          · exact absurd h (by simp)
        · rw [if_neg hg2] at h
          exact absurd h (by simp)
    · rw [if_neg hg] at h
      dsimp only at h
      by_cases hg2 : (decide (flag &&& FlagCompress ≠ 0)) = true
      · rw [if_pos hg2] at h
        cases huc : cp.uncompress b <;> rw [huc] at h
        · right
          exact ((Except.error.injEq _ _).mp h).symm
        · exact absurd h (by simp)
      · rw [if_neg hg2] at h
        exact absurd h (by simp)

theorem lookup_filter_self {α : Type} (sessions : List (SessionID × α))
    (sid : SessionID) :
    (sessions.filter (fun p => p.1 != sid)).lookup sid = none := by
  induction sessions with
  | nil => rfl
  | cons p rest ih =>
    by_cases hk : p.1 = sid
    · simp only [List.filter_cons, hk]
      simpa using ih
    · have hbe : (p.1 != sid) = true := by simp [hk]
      have hbeq : (sid == p.1) = false := by simp [Ne.symm hk]
      simp only [List.filter_cons, hbe, if_true, List.lookup, hbeq]
      exact ih

theorem length_filter_of_lookup {α : Type} (sessions : List (SessionID × α))
    (sid : SessionID) (x : α)
    (hnd : (sessions.map Prod.fst).Nodup)
    (hlk : sessions.lookup sid = some x) :
    (sessions.filter (fun p => p.1 != sid)).length + 1 = sessions.length := by
  induction sessions with
  | nil => exact absurd hlk (by simp)
  | cons p rest ih =>
    rw [List.map_cons, List.nodup_cons] at hnd
    by_cases hk : p.1 = sid
    · have hall : rest.filter (fun q => q.1 != sid) = rest := by
        rw [List.filter_eq_self]
        intro q hq
        simp only [bne_iff_ne, ne_eq]
        intro hq1
        apply hnd.1
        rw [← hk] at hq1
        rw [← hq1]
        exact List.mem_map_of_mem Prod.fst hq
      simp only [List.filter_cons, hk]
      simp [hall]
    · have hbe : (p.1 != sid) = true := by simp [hk]
      have hbeq : (sid == p.1) = false := by simp [Ne.symm hk]
      simp only [List.lookup, hbeq] at hlk
      simp only [List.filter_cons, hbe, if_true, List.length_cons]
      rw [ih hnd.2 hlk]

/-! ## Claim theorems -/

/-- Claim C1 (counterexample): the claim asserts the unpacked message's
`code` equals the packed message's `code`; packing `code = 7` and unpacking
yields `code = 0` — `Unpack` skips the two code bytes unconditionally. -/
theorem c1_roundtrip_counterexample :
    Unpack ⟨false, 0, none, false, false, fun _ _ => []⟩ none []
        (Pack ⟨false, 0, none, false, false, fun _ _ => []⟩ none []
          ⟨0, 1, 7, 1, 2, [104, 105]⟩)
      = .ok ([⟨0, 1, 0, 1, 2, [104, 105]⟩], [])
    ∧ (⟨0, 1, 0, 1, 2, [104, 105]⟩ : Message).code
        ≠ (⟨0, 1, 7, 1, 2, [104, 105]⟩ : Message).code :=
  ⟨rfl, by decide⟩

/-- Claim C1 (corrected): `Unpack (Pack m)` yields exactly one message with
the same `sn`, `module`, `action` and `payload`, a `flag` equal to `m`'s
outside the derived bits (`flag &&& 0xFEEE = m.flag`), and `code = 0`
regardless of `m.code` (`Unpack` discards the code bytes). Hypotheses:
the collaborator contracts (`CfgInv`) and the well-formedness bounds
(`GoodMsg`), in particular the transformed body fits the 16-bit length
field. -/
theorem c1_roundtrip_amended (l : LTD) (co : Option CryptoInst)
    (k : List Nat) (m : Message) (hcfg : CfgInv l co k)
    (hm : GoodMsg l co m) :
    Unpack l co k (Pack l co k m)
      = .ok ([⟨packedFlag l co m, m.sn, 0, m.module, m.action, m.payload⟩],
          [])
    ∧ packedFlag l co m &&& 65262 = m.flag := by
  constructor
  · have h := Unpack_frame_cons l co k m [] hcfg hm
    rw [List.append_nil] at h
    rw [h, Unpack_nil]
    rfl
  · exact packedFlag_strip l co m hm.1 hm.2.2.2.2.1

def c1wLTD : LTD :=
  ⟨true, 0, some ⟨fun b => 0 :: b,
    fun b => match b with | _ :: rest => some rest | [] => none⟩,
    true, true, fun _ _ => List.replicate 16 0⟩

def c1wCrypto : CryptoInst :=
  ⟨List.reverse, fun b => some b.reverse⟩

def c1wMsg : Message := ⟨0, 5, 9, 2, 3, [7, 8]⟩

theorem c1_roundtrip_amended_witness :
    CfgInv c1wLTD (some c1wCrypto) [1] ∧ GoodMsg c1wLTD (some c1wCrypto)
      c1wMsg ∧
    (Unpack c1wLTD (some c1wCrypto) [1]
        (Pack c1wLTD (some c1wCrypto) [1] c1wMsg)
      = .ok ([⟨packedFlag c1wLTD (some c1wCrypto) c1wMsg, 5, 0, 2, 3,
          [7, 8]⟩], [])
    ∧ packedFlag c1wLTD (some c1wCrypto) c1wMsg &&& 65262 = 0) := by
  have hcfg : CfgInv c1wLTD (some c1wCrypto) [1] := by
    refine ⟨fun d => by simp [c1wLTD, ChecksumLength], ?_, ?_⟩
    · intro cr b h
      injection h with h
      subst h
      simp [c1wCrypto]
    · intro cp b h
      injection h with h
      subst h
      rfl
  have hm : GoodMsg c1wLTD (some c1wCrypto) c1wMsg :=
    ⟨by decide, by decide, by decide, by decide, by decide, by decide,
      by decide⟩
  exact ⟨hcfg, hm, c1_roundtrip_amended _ _ _ _ hcfg hm⟩

/-- Claim C4 (counterexample): a `FlagZero` HeartBeat frame is not echoed;
`handleZero` returns the `action not supported` error for action 3. -/
theorem c4_heartbeat_counterexample :
    handleZero (fun _ => .ok none) (fun _ => .ok none)
        ⟨FlagZero, 0, 0, 0, FlagZeroHeartBeat, []⟩
      = .error (.unsupported FlagZeroHeartBeat) := rfl

/-- Claim C4 (corrected): the KCP session's control-frame handler supports
only `ExchangeKeyRequest` (1) and `ExchangeKeyResponse` (2); an inbound
`FlagZero` frame with action `HeartBeat` (3) yields an
`action not supported` error and no response, for any sub-handlers. -/
theorem c4_heartbeat_amended
    (f g : Message → Except ZeroErr (Option Message)) (m : Message)
    (hz : m.flag &&& FlagZero ≠ 0) (ha : m.action = FlagZeroHeartBeat) :
    handleZero f g m = .error (.unsupported m.action) := by
  unfold handleZero
  rw [if_neg hz, if_neg (by rw [ha]; decide), if_neg (by rw [ha]; decide)]

theorem c4_heartbeat_amended_witness :
    (⟨4096, 1, 0, 0, 3, [5]⟩ : Message).flag &&& FlagZero ≠ 0 ∧
    handleZero (fun _ => .ok (some ⟨0, 0, 0, 0, 0, []⟩))
        (fun _ => .ok (some ⟨0, 0, 0, 0, 0, []⟩)) ⟨4096, 1, 0, 0, 3, [5]⟩
      = .error (.unsupported 3) :=
  ⟨by decide, c4_heartbeat_amended _ _ _ (by decide) rfl⟩

/-- Claim C5 (counterexample): the claim's 16-bit composite
`(module <<< 4) ||| action` gives distinct keys 256 and 0 to
`(module, action) = (16, 0)` and `(0, 0)`, yet `AddRouter` reports
`RouterRepeated` for the second binding — the source computes the key in
8-bit arithmetic, where both collapse to 0. -/
theorem c5_router_key_counterexample :
    AddRouter [] 16 0 (some fun _ => none)
      = .ok [(0, fun _ => none)]
    ∧ AddRouter [(0, fun _ => none)] 0 0 (some fun _ => none)
      = .error .repeated
    ∧ ((16 <<< 4) ||| 0 : Nat) ≠ ((0 <<< 4) ||| 0 : Nat) :=
  ⟨rfl, rfl, by decide⟩

/-- Claim C5 (corrected): the router key is `(module*16 + action) mod 256`
(Go evaluates `module<<4 + action` in `uint8`, then widens), `AddRouter`
fails `RouterRepeated` exactly when that key is already bound, binding two
pairs with equal keys collides, and `Handler` looks up the same key. -/
theorem c5_router_key_amended :
    (∀ module action : Nat,
      RouterID module action = (module * 16 + action) % 256) ∧
    (∀ (routes : List (Nat × HandlerFunc)) (module action : Nat)
        (h : HandlerFunc),
      AddRouter routes module action (some h) = .error .repeated
        ↔ (routes.lookup (RouterID module action)).isSome = true) ∧
    (∀ (m1 a1 m2 a2 : Nat) (h1 h2 : HandlerFunc),
      RouterID m1 a1 = RouterID m2 a2 →
      AddRouter [] m1 a1 (some h1) = .ok [(RouterID m1 a1, h1)] ∧
      AddRouter [(RouterID m1 a1, h1)] m2 a2 (some h2) = .error .repeated) ∧
    (∀ (msg : Message) (h : HandlerFunc),
      routerHandler [(RouterID msg.module msg.action, h)] none msg
        = .ok (h msg)) := by
  refine ⟨?_, ?_, ?_, ?_⟩
  · intro module action
    simp only [RouterID, Nat.shiftLeft_eq]
    norm_num
  · intro routes module action h
    by_cases hlk : (routes.lookup (RouterID module action)).isSome = true
    · simp [AddRouter, hlk]
    · simp [AddRouter, hlk]
  · intro m1 a1 m2 a2 h1 h2 heq
    constructor
    · rfl
    · simp [AddRouter, ← heq, List.lookup]
  · intro msg h
    simp [routerHandler, List.lookup]

theorem c5_router_key_amended_witness :
    RouterID 0 16 = RouterID 1 0 ∧
    AddRouter [] 0 16 (some fun m => some m) = .ok [(RouterID 0 16,
      fun m => some m)] ∧
    AddRouter [(RouterID 0 16, fun m => some m)] 1 0 (some fun m => some m)
      = .error .repeated :=
  ⟨by decide, (c5_router_key_amended.2.2.1 0 16 1 0 (fun m => some m)
      (fun m => some m) (by decide)).1,
    (c5_router_key_amended.2.2.1 0 16 1 0 (fun m => some m)
      (fun m => some m) (by decide)).2⟩

/-- Claim C6 (counterexample): packing
`{flag 0, sn 1, code 0, module 1, action 2, payload "hi"}` with all
features disabled does not produce the claimed bytes `00 04 …`: the length
field holds the body length 6, not 4. -/
theorem c6_bare_frame_counterexample :
    Pack ⟨false, 0, none, false, false, fun _ _ => []⟩ none []
        ⟨0, 1, 0, 1, 2, [0x68, 0x69]⟩
      ≠ [0x00, 0x04, 0x00, 0x00, 0x00, 0x01, 0x00, 0x00, 0x01, 0x02,
         0x68, 0x69] := by
  decide

/-- Claim C6 (corrected): the bare frame for
`{flag 0, sn 1, code 0, module 1, action 2, payload "hi"}` is the 12 bytes
`00 06 00 00 00 01 00 00 01 02 68 69` — the 2-byte length field counts the
whole body `code‖module‖action‖payload` (6 bytes). -/
theorem c6_bare_frame_amended :
    Pack ⟨false, 0, none, false, false, fun _ _ => []⟩ none []
        ⟨0, 1, 0, 1, 2, [0x68, 0x69]⟩
      = [0x00, 0x06, 0x00, 0x00, 0x00, 0x01, 0x00, 0x00, 0x01, 0x02,
         0x68, 0x69] := by
  decide

/-- Claim C7 (counterexample): with checksums enabled `HeadLen()` returns
22, not the claimed 26; with checksums disabled it returns 6, not 10. -/
theorem c7_headlen_counterexample :
    (⟨false, 0, none, false, true, fun _ _ => []⟩ : LTD).headLen ≠ 26 ∧
    (⟨false, 0, none, false, false, fun _ _ => []⟩ : LTD).headLen ≠ 10 := by
  decide

/-- Claim C7 (corrected): `HeadLen()` of the LTD codec returns 6 when
checksums are disabled and 22 when enabled — the head is
`Len(2)‖Flag(2)‖SN(2)‖[Checksum(16)]`; `code‖module‖action` live in the
body. (The legacy codec that kept them in the head returned 10 and 26.) -/
theorem c7_headlen_amended (l : LTD) :
    l.headLen = if l.whetherChecksum then 22 else 6 := by
  unfold LTD.headLen ltdHeadLen ChecksumLength
  cases l.whetherChecksum <;> simp

/-- Claim C10 (confirmed): for a registered id, `Del` closes that session
(reported in the second component), removes its key, so `Get` then fails
`ErrSessionNotFound` and `Len` drops by one; for an unregistered id `Del`
leaves the registry unchanged and closes nothing. The registry is a
key-unique map, hence the `Nodup` hypothesis on the stored ids. -/
theorem c10_session_manager_del {α : Type}
    (sessions : List (SessionID × α)) (sessionID : SessionID)
    (hnd : (sessions.map Prod.fst).Nodup) :
    (∀ sess, sessions.lookup sessionID = some sess →
      (SMDel sessions sessionID).2 = some sess ∧
      SMGet (SMDel sessions sessionID).1 sessionID
        = .error .sessionNotFound ∧
      SMLen (SMDel sessions sessionID).1 + 1 = SMLen sessions) ∧
    (sessions.lookup sessionID = none →
      SMDel sessions sessionID = (sessions, none)) := by
  constructor
  · intro sess hlk
    refine ⟨?_, ?_, ?_⟩
    · simp [SMDel, hlk]
    · simp only [SMDel, hlk, SMGet, lookup_filter_self]
    · simp only [SMDel, hlk, SMLen]
      exact length_filter_of_lookup sessions sessionID sess hnd hlk
  · intro hnone
    simp [SMDel, hnone]

theorem c10_session_manager_del_witness :
    (([((1 : SessionID), (10 : Nat)), (2, 20)]).map Prod.fst).Nodup ∧
    ([((1 : SessionID), (10 : Nat)), (2, 20)]).lookup 1 = some 10 ∧
    (SMDel [((1 : SessionID), (10 : Nat)), (2, 20)] 1).2 = some 10 ∧
    SMGet (SMDel [((1 : SessionID), (10 : Nat)), (2, 20)] 1).1 1
      = .error .sessionNotFound ∧
    SMLen (SMDel [((1 : SessionID), (10 : Nat)), (2, 20)] 1).1 + 1
      = SMLen [((1 : SessionID), (10 : Nat)), (2, 20)] := by
  have h := (c10_session_manager_del
    [((1 : SessionID), (10 : Nat)), (2, 20)] 1 (by decide)).1 10 (by decide)
  exact ⟨by decide, by decide, h.1, h.2.1, h.2.2⟩

/-- Claim C2 (confirmed): on `FlagZero` frames `Pack` applies no
encryption and computes no checksum — the output does not depend on the
crypto instance, the HMAC function or the checksum key, and the checksum
slot stays zero even with checksums enabled; correspondingly `unpackFrame`
performs no decryption and no checksum verification on a consumed
`FlagZero` frame — its result is likewise independent of all three. -/
theorem c2_flagzero_bypass (l : LTD)
    (h1 h2 : List Nat → List Nat → List Nat) (c : CryptoInst)
    (k1 k2 : List Nat) (m : Message) (allBytes : List Nat) (bodyLen : Nat)
    (hm : m.flag &&& FlagZero ≠ 0)
    (hf : readU16 allBytes 2 &&& FlagZero ≠ 0) :
    Pack { l with hmac := h1 } (some c) k1 m
      = Pack { l with hmac := h2 } none k2 m ∧
    (l.whetherChecksum = true →
      ((Pack { l with hmac := h1 } (some c) k1 m).drop 6).take
          ChecksumLength
        = List.replicate ChecksumLength 0) ∧
    unpackFrame { l with hmac := h1 } (some c) k1 allBytes bodyLen
      = unpackFrame { l with hmac := h2 } none k2 allBytes bodyLen := by
  have hzF : ∀ h' : List Nat → List Nat → List Nat,
      (packBody { l with hmac := h' } none m).2 &&& FlagZero ≠ 0 := by
    intro h'
    rw [show (FlagZero : Nat) = 4096 from rfl, packBody_land_4096]
    exact hm
  refine ⟨?_, ?_, ?_⟩
  · rw [Pack_eq_assembleFrame, Pack_eq_assembleFrame,
      packBody_flagzero { l with hmac := h1 } c m hm,
      assembleFrame_flagzero _ _ _ _ (hzF h1),
      assembleFrame_flagzero _ _ _ _ (hzF h2)]
    rfl
  · intro hc
    rw [Pack_eq_assembleFrame,
      packBody_flagzero { l with hmac := h1 } c m hm,
      assembleFrame_flagzero _ _ _ _ (hzF h1)]
    have hcs : ((if ({ l with hmac := h1 } : LTD).whetherChecksum then
        List.replicate ChecksumLength (0 : Nat) else [])).length
        = ChecksumLength := by
      simp [hc]
    rw [slot_canon _ _ _ _ _ _ hcs]
    simp [hc]
  · exact unpackFrame_flagzero_indep l h1 h2 c k1 k2 allBytes bodyLen hf

def c2wLTD1 : LTD :=
  ⟨false, 0, none, true, true, fun _ _ => List.replicate 16 1⟩

def c2wLTD2 : LTD :=
  ⟨false, 0, none, true, true, fun _ _ => List.replicate 16 2⟩

def c2wCrypto : CryptoInst := ⟨List.reverse, fun b => some b.reverse⟩

def c2wMsg : Message := ⟨4096, 2, 0, 1, 1, [9]⟩

def c2wBytes : List Nat := [0, 4, 16, 0, 0, 3, 0, 0, 1, 2]

theorem c2_flagzero_bypass_witness :
    c2wMsg.flag &&& FlagZero ≠ 0 ∧
    readU16 c2wBytes 2 &&& FlagZero ≠ 0 ∧
    Pack c2wLTD1 (some c2wCrypto) [7] c2wMsg
      = Pack c2wLTD2 none [8] c2wMsg ∧
    unpackFrame c2wLTD1 (some c2wCrypto) [7] c2wBytes 4
      = unpackFrame c2wLTD2 none [8] c2wBytes 4 := by
  have h := c2_flagzero_bypass c2wLTD1
    (fun _ _ => List.replicate 16 1) (fun _ _ => List.replicate 16 2)
    c2wCrypto [7] [8] c2wMsg c2wBytes 4 (by decide) (by decide)
  exact ⟨by decide, by decide, h.1, h.2.2⟩

/-- Claim C3 (confirmed): answering a client's key-exchange request with
`ExchangeKeyResponse` and parsing the response with
`ExchangeKeyParseResponse` (using the stashed private key and nonce)
yields the same key on both sides, equal to
shared-secret ‖ server-nonce ‖ client-nonce, 96 bytes long — under the
hypothesis that the two ECDH shared-secret computations agree, plus the
hex/JSON codec round-trip contracts. -/
theorem c3_key_convergence (p : KeyPrims)
    (clientPub clientPriv serverPub serverPriv rc rs : List Nat)
    (hreq : ∀ r, p.unmarshalRequest (p.marshalRequest r) = some r)
    (hreqne : ∀ r, (p.marshalRequest r).length ≠ 0)
    (hresp : ∀ r, p.unmarshalResponse (p.marshalResponse r) = some r)
    (hrespne : ∀ r, (p.marshalResponse r).length ≠ 0)
    (hhex : ∀ b, p.hexDecode (p.hexEncode b) = b)
    (hagree : p.shareKey serverPriv clientPub
      = p.shareKey clientPriv serverPub)
    (hslen : (p.shareKey serverPriv clientPub).length = 32)
    (hrs : rs.length = 32) (hrc : rc.length = 32) :
    ∃ serverKey response,
      ExchangeKeyResponse p
          (ExchangeKeyRequest p clientPub clientPriv rc).2.2.payload
          serverPub serverPriv rs = some (serverKey, response) ∧
      ExchangeKeyParseResponse p response.payload clientPriv rc
        = some serverKey ∧
      serverKey = p.shareKey serverPriv clientPub ++ rs ++ rc ∧
      serverKey.length = 96 := by
  refine ⟨p.shareKey serverPriv clientPub ++ rs ++ rc,
    ⟨FlagZero, 0, 0, 0, FlagZeroExchangeKeyResponse,
      p.marshalResponse ⟨p.hexEncode serverPub, p.hexEncode rs⟩⟩,
    ?_, ?_, rfl, ?_⟩
  · simp only [ExchangeKeyRequest, ExchangeKeyResponse]
    rw [if_neg (hreqne _), hreq]
    simp only [hhex]
    rfl
  · simp only [ExchangeKeyParseResponse]
    rw [if_neg (hrespne _), hresp]
    simp only [hhex]
    rw [← hagree]
    rfl
  · simp [hslen, hrs, hrc]

def c3wPrims : KeyPrims :=
  ⟨id, id,
    fun r => r.publicKey.length :: (r.publicKey ++ r.r),
    fun bs => match bs with
      | n :: rest => some ⟨rest.take n, rest.drop n⟩
      | [] => none,
    fun r => r.publicKey.length :: (r.publicKey ++ r.r),
    fun bs => match bs with
      | n :: rest => some ⟨rest.take n, rest.drop n⟩
      | [] => none,
    fun _ _ => List.replicate 32 6⟩

theorem c3_key_convergence_witness :
    ∃ serverKey response,
      ExchangeKeyResponse c3wPrims
          (ExchangeKeyRequest c3wPrims [1] [2] (List.replicate 32 3)).2.2.payload
          [4] [5] (List.replicate 32 9) = some (serverKey, response) ∧
      ExchangeKeyParseResponse c3wPrims response.payload [2]
          (List.replicate 32 3)
        = some serverKey ∧
      serverKey = c3wPrims.shareKey [5] [1] ++ List.replicate 32 9 ++
        List.replicate 32 3 ∧
      serverKey.length = 96 := by
  refine c3_key_convergence c3wPrims [1] [2] [4] [5]
    (List.replicate 32 3) (List.replicate 32 9) ?_ ?_ ?_ ?_ ?_ rfl rfl
    (by decide) (by decide)
  · intro r
    cases r
    simp [c3wPrims, List.take_left, List.drop_left]
  · intro r
    simp [c3wPrims]
  · intro r
    cases r
    simp [c3wPrims, List.take_left, List.drop_left]
  · intro r
    simp [c3wPrims]
  · intro b
    rfl

theorem readU16_take (buffer : List Nat) (n i : Nat) (h : i + 2 ≤ n) :
    readU16 (buffer.take n) i = readU16 buffer i := by
  unfold readU16
  rw [List.drop_take, List.take_take,
    Nat.min_eq_left (by omega : 2 ≤ n - i)]

/-- Claim C9 (confirmed): with checksums enabled, a consumed frame lacking
`FlagChecksum` makes `Unpack` fail `NoChecksumFlag`; a non-`FlagZero`
frame whose carried 16-byte checksum differs from the HMAC recomputed over
the consumed bytes with the slot zeroed makes it fail `VerifyChecksum`;
and a frame passing both checks is never rejected with either integrity
error. -/
theorem c9_checksum_integrity (l : LTD) (co : Option CryptoInst)
    (k : List Nat) (buffer : List Nat)
    (hc : l.whetherChecksum = true)
    (hcomplete : l.headLen + toUint16 (buffer.take 2) ≤ buffer.length) :
    (readU16 buffer 2 &&& FlagChecksum = 0 →
      Unpack l co k buffer = .error .noChecksumFlag) ∧
    (readU16 buffer 2 &&& FlagChecksum ≠ 0 →
      readU16 buffer 2 &&& FlagZero = 0 →
      ((buffer.take (l.headLen + toUint16 (buffer.take 2))).drop 6).take
          ChecksumLength
        ≠ l.hmac (overwriteFrom
            (buffer.take (l.headLen + toUint16 (buffer.take 2))) 6
            (List.replicate ChecksumLength 0)) k →
      Unpack l co k buffer = .error .verifyChecksum) ∧
    (readU16 buffer 2 &&& FlagChecksum ≠ 0 →
      readU16 buffer 2 &&& FlagZero = 0 →
      ((buffer.take (l.headLen + toUint16 (buffer.take 2))).drop 6).take
          ChecksumLength
        = l.hmac (overwriteFrom
            (buffer.take (l.headLen + toUint16 (buffer.take 2))) 6
            (List.replicate ChecksumLength 0)) k →
      unpackFrame l co k (buffer.take (l.headLen + toUint16 (buffer.take 2)))
          (toUint16 (buffer.take 2)) ≠ .error .verifyChecksum ∧
      unpackFrame l co k (buffer.take (l.headLen + toUint16 (buffer.take 2)))
          (toUint16 (buffer.take 2)) ≠ .error .noChecksumFlag) := by
  have h6' := headLen_ge_6 l
  have hr2 : readU16 (buffer.take (l.headLen + toUint16 (buffer.take 2))) 2
      = readU16 buffer 2 := readU16_take buffer _ 2 (by omega)
  refine ⟨?_, ?_, ?_⟩
  · intro h0
    exact Unpack_step_error l co k buffer _ hcomplete
      (unpackFrame_noflag l co k _ _ hc (by rw [hr2]; exact h0))
  · intro hflag hz hne
    have hbad : ltdVerifyChecksum l
        (((buffer.take (l.headLen + toUint16 (buffer.take 2))).drop 6).take
          ChecksumLength)
        (buffer.take (l.headLen + toUint16 (buffer.take 2))) k = false := by
      rw [← Bool.not_eq_true, ltdVerifyChecksum_iff]
      exact hne
    exact Unpack_step_error l co k buffer _ hcomplete
      (unpackFrame_badsum l co k _ _ hc (by rw [hr2]; exact hflag)
        (by rw [hr2]; exact hz) hbad)
  · intro hflag hz heq
    have hok : ltdVerifyChecksum l
        (((buffer.take (l.headLen + toUint16 (buffer.take 2))).drop 6).take
          ChecksumLength)
        (buffer.take (l.headLen + toUint16 (buffer.take 2))) k = true := by
      rw [ltdVerifyChecksum_iff]
      exact heq
    have hpass := unpackFrame_pass l co k
      (buffer.take (l.headLen + toUint16 (buffer.take 2)))
      (toUint16 (buffer.take 2))
      (fun _ => by rw [hr2]; exact hflag)
      (fun _ _ => hok)
    constructor
    · rw [hpass]
      intro hcon
      rcases parseBody_error_cases l co _ _ _ _ _ hcon with h | h <;>
        exact absurd h (by decide)
    · rw [hpass]
      intro hcon
      rcases parseBody_error_cases l co _ _ _ _ _ hcon with h | h <;>
        exact absurd h (by decide)

def c9wLTD : LTD :=
  ⟨false, 0, none, false, true, fun _ _ => List.replicate 16 0⟩

def c9wBuf : List Nat :=
  [0, 4, 1, 0, 0, 7, 0, 0, 0, 0, 0, 0, 0, 0, 0, 0, 0, 0, 0, 0, 0, 0, 0,
   0, 1, 2]

theorem c9_checksum_integrity_witness :
    c9wLTD.whetherChecksum = true ∧
    c9wLTD.headLen + toUint16 (c9wBuf.take 2) ≤ c9wBuf.length ∧
    (unpackFrame c9wLTD none []
        (c9wBuf.take (c9wLTD.headLen + toUint16 (c9wBuf.take 2)))
        (toUint16 (c9wBuf.take 2)) ≠ .error .verifyChecksum ∧
     unpackFrame c9wLTD none []
        (c9wBuf.take (c9wLTD.headLen + toUint16 (c9wBuf.take 2)))
        (toUint16 (c9wBuf.take 2)) ≠ .error .noChecksumFlag) := by
  have h := (c9_checksum_integrity c9wLTD none [] c9wBuf rfl
    (by decide)).2.2 (by decide) (by decide) (by decide)
  exact ⟨rfl, by decide, h⟩

/-- Claim C8 (confirmed): for a concatenation of packed frames truncated
at any byte offset, `Unpack` on the FIFO buffer returns without error
exactly the complete messages in order (as their round-trip images) and
leaves the bytes of the incomplete trailing frame buffered; once the
missing bytes are appended, a further `Unpack` yields the pending
messages with nothing left over. -/
theorem c8_truncated_stream (l : LTD) (co : Option CryptoInst)
    (k : List Nat) (msgs : List Message) (t : Nat)
    (hcfg : CfgInv l co k) (hms : ∀ m ∈ msgs, GoodMsg l co m) :
    Unpack l co k (((msgs.map (Pack l co k)).flatten).take t)
      = .ok ((msgs.take
            (completeCount ((msgs.map (Pack l co k)).map List.length)
              t)).map (unpackImage l co),
          (((msgs.map (Pack l co k)).flatten).take t).drop
            (completeLen ((msgs.map (Pack l co k)).map List.length) t))
    ∧ Unpack l co k
        ((((msgs.map (Pack l co k)).flatten).take t).drop
          (completeLen ((msgs.map (Pack l co k)).map List.length) t) ++
         ((msgs.map (Pack l co k)).flatten).drop t)
      = .ok ((msgs.drop
            (completeCount ((msgs.map (Pack l co k)).map List.length)
              t)).map (unpackImage l co), []) :=
  Unpack_stream_split l co k msgs t hcfg hms

def c8wLTD : LTD :=
  ⟨false, 0, none, false, false, fun _ _ => List.replicate 16 0⟩

def c8wMsg1 : Message := ⟨0, 1, 0, 1, 1, [65]⟩

def c8wMsg2 : Message := ⟨0, 2, 0, 1, 2, [66, 67]⟩

theorem c8_truncated_stream_witness :
    CfgInv c8wLTD none [] ∧
    (∀ m ∈ [c8wMsg1, c8wMsg2], GoodMsg c8wLTD none m) ∧
    (Unpack c8wLTD none []
        ((([c8wMsg1, c8wMsg2].map (Pack c8wLTD none [])).flatten).take 13)
      = .ok (([c8wMsg1, c8wMsg2].take
            (completeCount (([c8wMsg1, c8wMsg2].map
              (Pack c8wLTD none [])).map List.length) 13)).map
          (unpackImage c8wLTD none),
          ((([c8wMsg1, c8wMsg2].map (Pack c8wLTD none [])).flatten).take
            13).drop
            (completeLen (([c8wMsg1, c8wMsg2].map
              (Pack c8wLTD none [])).map List.length) 13))
    ∧ Unpack c8wLTD none []
        (((([c8wMsg1, c8wMsg2].map (Pack c8wLTD none [])).flatten).take
            13).drop
          (completeLen (([c8wMsg1, c8wMsg2].map
            (Pack c8wLTD none [])).map List.length) 13) ++
         (([c8wMsg1, c8wMsg2].map (Pack c8wLTD none [])).flatten).drop 13)
      = .ok (([c8wMsg1, c8wMsg2].drop
            (completeCount (([c8wMsg1, c8wMsg2].map
              (Pack c8wLTD none [])).map List.length) 13)).map
          (unpackImage c8wLTD none), [])) := by
  have hcfg : CfgInv c8wLTD none [] := by
    refine ⟨fun d => by simp [c8wLTD, ChecksumLength], ?_, ?_⟩
    · intro cr b h
      exact Option.noConfusion h
    · intro cp b h
      exact Option.noConfusion h
  have hms : ∀ m ∈ [c8wMsg1, c8wMsg2], GoodMsg c8wLTD none m := by
    intro mm hmm
    rcases List.mem_cons.mp hmm with rfl | hmm2
    · exact ⟨by decide, by decide, by decide, by decide, by decide,
        by decide, by decide⟩
    · rcases List.mem_cons.mp hmm2 with rfl | hmm3
      · exact ⟨by decide, by decide, by decide, by decide, by decide,
          by decide, by decide⟩
      · exact absurd hmm3 (by simp)
  exact ⟨hcfg, hms, c8_truncated_stream c8wLTD none [] [c8wMsg1, c8wMsg2]
    13 hcfg hms⟩
